import Mathlib

/-!
Verification of the kakoune-scrollback core: a shallow embedding of the
scrollback rendering pipeline (palette resolution, kitty color-response
parsing, screen reconstruction, output serialization, input normalization)
together with proofs of the specification's invariants and concrete
scenarios.

Strings are modelled as `List Char`; byte buffers as `List Nat`; Rust byte
lengths via the UTF-8 size of each character.  The vt100 crate is external
to the repository: the reconstruction is embedded over an abstract screen
interface (`VtScreen`), and a small emulator modelled from the spec
provides concrete screens for the literal scenarios.
-/

/-- Convert a string literal to the `List Char` representation used throughout. -/
def str (s : String) : List Char := s.data

/-- UTF-8 encoded size of a character, as in Rust `char::len_utf8`. -/
def lenUtf8 (c : Char) : Nat :=
  if c.toNat < 0x80 then 1
  else if c.toNat < 0x800 then 2
  else if c.toNat < 0x10000 then 3
  else 4

/-- Byte length of a string (Rust `str::len`). -/
def byteLen : List Char → Nat
  | [] => 0
  | c :: cs => lenUtf8 c + byteLen cs

theorem lenUtf8_pos (c : Char) : 1 ≤ lenUtf8 c := by
  unfold lenUtf8
  split
  · exact Nat.le_refl 1
  · split
    · exact Nat.le_of_lt (by omega)
    · split
      · exact Nat.le_of_lt (by omega)
      · exact Nat.le_of_lt (by omega)

theorem byteLen_append (a b : List Char) :
    byteLen (a ++ b) = byteLen a + byteLen b := by
  induction a with
  | nil => simp [byteLen]
  | cons c cs ih => simp [byteLen, ih]; omega

theorem byteLen_cons_pos (c : Char) (cs : List Char) : 1 ≤ byteLen (c :: cs) := by
  have := lenUtf8_pos c
  simp [byteLen]; omega

theorem byteLen_eq_zero {l : List Char} (h : byteLen l = 0) : l = [] := by
  cases l with
  | nil => rfl
  | cons c cs => exact absurd h (by have := byteLen_cons_pos c cs; omega)

/-- Unicode `White_Space` test, as in Rust `char::is_whitespace`. -/
def rustIsWhitespace (c : Char) : Bool :=
  let n := c.toNat
  decide ((9 ≤ n ∧ n ≤ 13) ∨ n = 32 ∨ n = 0x85 ∨ n = 0xA0 ∨ n = 0x1680 ∨
    (0x2000 ≤ n ∧ n ≤ 0x200A) ∨ n = 0x2028 ∨ n = 0x2029 ∨ n = 0x202F ∨
    n = 0x205F ∨ n = 0x3000)

/-- ASCII whitespace test, as in Rust `char::is_ascii_whitespace`. -/
def rustIsAsciiWhitespace (c : Char) : Bool :=
  let n := c.toNat
  decide (n = 32 ∨ n = 9 ∨ n = 10 ∨ n = 12 ∨ n = 13)

/-- Rust `str::trim_end`: remove trailing Unicode whitespace. -/
def rustTrimEnd (l : List Char) : List Char :=
  (l.reverse.dropWhile rustIsWhitespace).reverse

/-- Trailing-trim using only ASCII whitespace; this follows the wording of the
spec ("trim trailing ASCII whitespace"), for comparison with the source's
`trim_end`. -/
def asciiTrimEnd (l : List Char) : List Char :=
  (l.reverse.dropWhile rustIsAsciiWhitespace).reverse

/-- Rust `str::trim`: remove leading and trailing Unicode whitespace. -/
def rustTrim (l : List Char) : List Char :=
  (((l.dropWhile rustIsWhitespace).reverse.dropWhile rustIsWhitespace)).reverse

theorem rustTrimEnd_decomp (l : List Char) :
    l = rustTrimEnd l ++ (l.reverse.takeWhile rustIsWhitespace).reverse := by
  have h := (List.takeWhile_append_dropWhile (p := rustIsWhitespace) (l := l.reverse)).symm
  unfold rustTrimEnd
  calc l = l.reverse.reverse := (List.reverse_reverse l).symm
    _ = (l.reverse.takeWhile rustIsWhitespace ++ l.reverse.dropWhile rustIsWhitespace).reverse := by
        rw [← h]
    _ = _ := by rw [List.reverse_append]

theorem byteLen_rustTrimEnd_le (l : List Char) : byteLen (rustTrimEnd l) ≤ byteLen l := by
  conv_rhs => rw [rustTrimEnd_decomp l]
  rw [byteLen_append]; omega

theorem rustTrimEnd_eq_of_byteLen (l : List Char)
    (h : byteLen (rustTrimEnd l) = byteLen l) : rustTrimEnd l = l := by
  have hd := rustTrimEnd_decomp l
  have hb : byteLen l = byteLen (rustTrimEnd l) + byteLen (l.reverse.takeWhile rustIsWhitespace).reverse := by
    conv_lhs => rw [hd]
    exact byteLen_append _ _
  have : byteLen (l.reverse.takeWhile rustIsWhitespace).reverse = 0 := by omega
  have hnil := byteLen_eq_zero this
  conv_rhs => rw [hd]
  rw [hnil, List.append_nil]

/-- Decimal digits of a natural number (fuel-based so the kernel can
evaluate it), as used by Rust's `Display` for unsigned integers. -/
def natCharsAux : Nat → Nat → List Char → List Char
  | 0, _, acc => acc
  | fuel + 1, n, acc =>
    if n < 10 then Char.ofNat (48 + n) :: acc
    else natCharsAux fuel (n / 10) (Char.ofNat (48 + n % 10) :: acc)

/-- Decimal representation of a natural number. -/
def natChars (n : Nat) : List Char := natCharsAux (n + 1) n []

/-! ## Palette (src/palette.rs) -/

/-- Default ANSI palette (colors 0-15, 3 bytes each = 48 bytes). -/
def DEFAULT_PALETTE : List Nat :=
  [0x00, 0x00, 0x00,
   0xCC, 0x00, 0x00,
   0x00, 0xCC, 0x00,
   0xCC, 0xCC, 0x00,
   0x00, 0x00, 0xCC,
   0xCC, 0x00, 0xCC,
   0x00, 0xCC, 0xCC,
   0xCC, 0xCC, 0xCC,
   0x66, 0x66, 0x66,
   0xFF, 0x00, 0x00,
   0x00, 0xFF, 0x00,
   0xFF, 0xFF, 0x00,
   0x00, 0x00, 0xFF,
   0xFF, 0x00, 0xFF,
   0x00, 0xFF, 0xFF,
   0xFF, 0xFF, 0xFF]

/-- The `vt100::Color` type: default, direct RGB, or 8-bit indexed. -/
inductive Color where
  | Default : Color
  | Rgb : Nat → Nat → Nat → Color
  | Idx : Nat → Color
deriving DecidableEq

/-- Convert indexed color (16-231) from the 6x6x6 cube (or 232-255 from the
grayscale ramp) to RGB.  The source panics for `idx < 16`; the panic is
modelled as `none`. -/
def idx_to_rgb (idx : Nat) : Option (Nat × Nat × Nat) :=
  if idx < 16 then
    none
  else if idx < 232 then
    let i := idx - 16
    let r := i / 36
    let g := (i % 36) / 6
    let b := i % 6
    let to_val := fun (c : Nat) => if c = 0 then 0 else 55 + 40 * c
    some (to_val r, to_val g, to_val b)
  else
    let val := 8 + 10 * (idx - 232)
    some (val, val, val)

/-- Resolve `vt100::Color` to normalized RGB.  Returns `ok none` for
`Default`; a panic reached through `idx_to_rgb` would be `error`. -/
def color_to_rgb (color : Color) (palette : List Nat) :
    Except Unit (Option (Nat × Nat × Nat)) :=
  match color with
  | Color.Default => Except.ok none
  | Color.Rgb r g b => Except.ok (some (r, g, b))
  | Color.Idx idx =>
    if idx < 16 then
      let base := idx * 3
      Except.ok (some (palette.getD base 0, palette.getD (base + 1) 0,
        palette.getD (base + 2) 0))
    else
      match idx_to_rgb idx with
      | some t => Except.ok (some t)
      | none => Except.error ()

/-- Uppercase hexadecimal digit for a value below 16. -/
def hexDigitUpper (n : Nat) : Char :=
  if n < 10 then Char.ofNat (48 + n) else Char.ofNat (65 + (n - 10))

/-- Two-digit uppercase hexadecimal rendering (Rust `{:02X}`). -/
def hex2 (n : Nat) : List Char := [hexDigitUpper (n / 16 % 16), hexDigitUpper (n % 16)]

/-- Convert `vt100::Color` to a Kakoune face color string; `none` for
`Default`, `rgb:RRGGBB` otherwise (panic modelled as the impossible
fallback of `idx_to_rgb`, which returns `none` for `idx < 16`; that case is
never taken here, mirroring the source routing). -/
def color_to_kak (color : Color) (palette : List Nat) : Option (List Char) :=
  match color with
  | Color.Default => none
  | Color.Rgb r g b => some (str "rgb:" ++ hex2 r ++ hex2 g ++ hex2 b)
  | Color.Idx idx =>
    let rgb :=
      if idx < 16 then
        let base := idx * 3
        (palette.getD base 0, palette.getD (base + 1) 0, palette.getD (base + 2) 0)
      else
        match idx_to_rgb idx with
        | some t => t
        | none => (0, 0, 0)
    some (str "rgb:" ++ hex2 rgb.1 ++ hex2 rgb.2.1 ++ hex2 rgb.2.2)

/-! ## Input normalization (src/tmux.rs, `normalize_capture`)

The source expands the buffer in place, walking from the tail and
inserting a CR before every LF whose original predecessor byte is not CR.
The embedding below is the direct functional form of that transformation:
the output is the concatenation, over the input bytes in order, of
`[CR, b]` when `b` is a bare LF and `[b]` otherwise, where "bare" checks
the previous original byte exactly as `data[i-1] != b'\r'` does. -/

/-- One pass of `normalize_capture`, tracking the previous original byte. -/
def normAux (prev : Option Nat) : List Nat → List Nat
  | [] => []
  | b :: rest =>
    (if b = 10 ∧ prev ≠ some 13 then [13, b] else [b]) ++ normAux (some b) rest

/-- Insert CR before every bare LF (src/tmux.rs `normalize_capture`). -/
def normalize_capture (data : List Nat) : List Nat := normAux none data

/-- Count of bare LFs, as in pass 1 of `normalize_capture`. -/
def bareLfCountAux (prev : Option Nat) : List Nat → Nat
  | [] => 0
  | b :: rest =>
    (if b = 10 ∧ prev ≠ some 13 then 1 else 0) + bareLfCountAux (some b) rest

/-- Number of LF bytes not preceded by CR. -/
def bareLfCount (data : List Nat) : Nat := bareLfCountAux none data

/-- No byte 0x0A occurs without an immediately preceding 0x0D, tracking the
previous byte. -/
def noBareLfAux (prev : Option Nat) : List Nat → Bool
  | [] => true
  | b :: rest => (decide (b ≠ 10) || decide (prev = some 13)) && noBareLfAux (some b) rest

/-- The buffer contains no bare LF. -/
def noBareLf (data : List Nat) : Bool := noBareLfAux none data

/-! ## Terminal data model (src/terminal.rs) -/

/-- Grid metadata: 0-based cursor coordinates, grid dimensions. -/
structure KittyPipeData where
  cursor_x : Nat
  cursor_y : Nat
  lines : Nat
  columns : Nat
deriving DecidableEq

/-- A vt100 cell: UTF-8 contents (empty for blank cells), wide-continuation
flag, colors and the five boolean attributes. -/
structure Cell where
  contents : List Char
  wide_continuation : Bool
  fgcolor : Color
  bgcolor : Color
  bold : Bool
  dim : Bool
  italic : Bool
  underline : Bool
  inverse : Bool
deriving DecidableEq

/-- Styled span with 1-based byte offsets, `end_byte` exclusive. -/
structure Span where
  start_byte : Nat
  end_byte : Nat
  face : List Char
deriving DecidableEq

/-- A reconstructed output line. -/
structure ProcessedLine where
  text : List Char
  spans : List Span
deriving DecidableEq

/-- Cursor position: 1-based line, 1-based byte offset. -/
structure CursorPosition where
  line : Nat
  col : Nat
deriving DecidableEq

/-- The reconstructed screen. -/
structure ProcessedScreen where
  lines : List ProcessedLine
  cursor : CursorPosition
deriving DecidableEq

/-- Kakoune face string of a cell (src/terminal.rs `cell_face`). -/
def cell_face (cell : Cell) (palette : List Nat) : Option (List Char) :=
  let fg := color_to_kak cell.fgcolor palette
  let bg := color_to_kak cell.bgcolor palette
  let attrs : List Char :=
    (if cell.bold then ['b'] else []) ++
    (if cell.dim then ['d'] else []) ++
    (if cell.italic then ['i'] else []) ++
    (if cell.underline then ['u'] else []) ++
    (if cell.inverse then ['r'] else [])
  if fg = none ∧ bg = none ∧ attrs = [] then
    none
  else
    let fg_str := fg.getD (str "default")
    let bg_str := bg.getD (str "default")
    let attr_str : List Char := if attrs = [] then [] else '+' :: attrs
    some (fg_str ++ [','] ++ bg_str ++ attr_str)

/-- Cell contents substituting a single space when empty
(src/terminal.rs lines 157-161). -/
def padCell (contents : List Char) : List Char :=
  if contents = [] then [' '] else contents

/-- Mutable state of the column walk in `process_row`: the text built so
far, the closed spans, the currently open face, the open span's 1-based
start byte, and the cursor byte column when it has been assigned. -/
structure RowSt where
  text : List Char
  spans : List Span
  cur : Option (List Char)
  sstart : Nat
  ccol : Option Nat
deriving DecidableEq

/-- Initial state of the column walk (`span_start_byte = 1`). -/
def rowInit : RowSt := { text := [], spans := [], cur := none, sstart := 1, ccol := none }

/-- Body of the column walk for one non-continuation cell
(src/terminal.rs lines 148-180). -/
def rowStep (palette : List Nat) (cursorX : Nat) (isCursorLine : Bool)
    (col : Nat) (cell : Cell) (st : RowSt) : RowSt :=
  let contents := cell.contents
  let byte_offset_before := byteLen st.text
  let ccol' := if isCursorLine ∧ col = cursorX then some (byte_offset_before + 1) else st.ccol
  let text' := st.text ++ padCell contents
  let face := cell_face cell palette
  if face ≠ st.cur then
    let byte_now := byte_offset_before + 1
    let spans' :=
      match st.cur with
      | some f =>
        if st.sstart < byte_now then
          st.spans ++ [{ start_byte := st.sstart, end_byte := byte_now, face := f }]
        else st.spans
      | none => st.spans
    { text := text', spans := spans', cur := face, sstart := byte_now, ccol := ccol' }
  else
    { text := text', spans := st.spans, cur := st.cur, sstart := st.sstart, ccol := ccol' }

/-- The column walk of `process_row`: `remaining` columns starting at `col`,
stopping early when the screen yields no cell, skipping wide continuations. -/
def processRowLoop (cellAt : Nat → Option Cell) (palette : List Nat)
    (cursorX : Nat) (isCursorLine : Bool) : Nat → Nat → RowSt → RowSt
  | 0, _, st => st
  | rem + 1, col, st =>
    match cellAt col with
    | none => st
    | some cell =>
      if cell.wide_continuation then
        processRowLoop cellAt palette cursorX isCursorLine rem (col + 1) st
      else
        processRowLoop cellAt palette cursorX isCursorLine rem (col + 1)
          (rowStep palette cursorX isCursorLine col cell st)

/-- Close the final open span (src/terminal.rs lines 183-193). -/
def closeRow (st : RowSt) : RowSt :=
  let byte_end := byteLen st.text + 1
  let spans' :=
    match st.cur with
    | some f =>
      if st.sstart < byte_end then
        st.spans ++ [{ start_byte := st.sstart, end_byte := byte_end, face := f }]
      else st.spans
    | none => st.spans
  { text := st.text, spans := spans', cur := none, sstart := st.sstart, ccol := st.ccol }

/-- Column walk plus final span close: the row before trailing trimming. -/
def buildRow (cellAt : Nat → Option Cell) (cols : Nat) (palette : List Nat)
    (cursorX : Nat) (isCursorLine : Bool) : RowSt :=
  closeRow (processRowLoop cellAt palette cursorX isCursorLine cols 0 rowInit)

/-- Set the last span's `end_byte` to `maxB` when it exceeds it
(src/terminal.rs `spans.last_mut()` adjustment). -/
def clampLast (maxB : Nat) : List Span → List Span
  | [] => []
  | [s] => [if maxB < s.end_byte then { s with end_byte := maxB } else s]
  | s :: t :: rest => s :: clampLast maxB (t :: rest)

/-- Trailing trim of a built row (src/terminal.rs lines 195-207): trim the
text with Rust `trim_end`, and when it shrank, drop spans starting at or
after the new end and clamp the last remaining span. -/
def trimRow (l : ProcessedLine) : ProcessedLine :=
  let trimmed := rustTrimEnd l.text
  if byteLen trimmed < byteLen l.text then
    let max_byte := byteLen trimmed + 1
    { text := trimmed,
      spans := clampLast max_byte (l.spans.filter (fun s => s.start_byte < max_byte)) }
  else
    l

/-- Process one viewport row into a line plus the cursor byte column it
assigned, if any (src/terminal.rs `process_row`). -/
def process_row (cellAt : Nat → Option Cell) (cols : Nat) (cursorX : Nat)
    (isCursorLine : Bool) (palette : List Nat) : ProcessedLine × Option Nat :=
  let st := buildRow cellAt cols palette cursorX isCursorLine
  (trimRow { text := st.text, spans := st.spans }, st.ccol)

/-! ## Screen reconstruction (src/terminal.rs `process_bytes`)

The vt100 emulator is abstracted as `VtScreen`: the total retained
scrollback row count, and the cell lookup performed after
`set_scrollback(offset)`. -/

/-- Abstract emulator state: `cell offset row col` is the cell the vt100
screen reports at `(row, col)` once the viewport is positioned at
`offset` scrollback rows above the live view. -/
structure VtScreen where
  scrollbackTotal : Nat
  cell : Nat → Nat → Nat → Option Cell

/-- Append one processed row and update the cursor
(src/terminal.rs `push_row`). -/
def push_row (cellAt : Nat → Option Cell) (pd : KittyPipeData)
    (cursor_output_line : Nat) (palette : List Nat)
    (st : List ProcessedLine × CursorPosition) : List ProcessedLine × CursorPosition :=
  let line_idx := st.1.length
  let is_cursor_line := line_idx + 1 = cursor_output_line
  let pr := process_row cellAt pd.columns pd.cursor_x is_cursor_line palette
  (st.1 ++ [pr.1],
   { line := if is_cursor_line then line_idx + 1 else st.2.line,
     col := pr.2.getD st.2.col })

/-- Pop trailing fully-empty lines (src/terminal.rs lines 81-87). -/
def popTrailingEmpty (ls : List ProcessedLine) : List ProcessedLine :=
  (ls.reverse.dropWhile (fun l => decide (l.text = []) && decide (l.spans = []))).reverse

/-- Row-collection phase of `process_bytes`: read the `rows` viewport rows
at the maximal scrollback offset, then one bottom row per decreasing
offset (src/terminal.rs lines 53-79). -/
def pushAllRows (screen : VtScreen) (pd : KittyPipeData) (palette : List Nat) :
    List ProcessedLine × CursorPosition :=
  let total_sb := screen.scrollbackTotal
  let cursor_output_line := total_sb + pd.cursor_y + 1
  let st0 : List ProcessedLine × CursorPosition := ([], { line := 1, col := 1 })
  let st1 := (List.range pd.lines).foldl
    (fun st row => push_row (fun col => screen.cell total_sb row col) pd
      cursor_output_line palette st) st0
  (List.range total_sb).reverse.foldl
    (fun st offset => push_row (fun col => screen.cell offset (pd.lines - 1) col) pd
      cursor_output_line palette st) st1

/-- Reconstruct the `ProcessedScreen` from an emulator screen
(src/terminal.rs `process_bytes`, after the parser has been fed): collect
all rows, trim trailing empty lines, and clamp the cursor when its line
was trimmed away. -/
def processScreen (screen : VtScreen) (pd : KittyPipeData) (palette : List Nat) :
    ProcessedScreen :=
  let st2 := pushAllRows screen pd palette
  let lines := popTrailingEmpty st2.1
  let cursor :=
    if lines.length < st2.2.line then
      ({ line := max lines.length 1, col := 1 } : CursorPosition)
    else st2.2
  { lines := lines, cursor := cursor }

/-! ## Spec-modelled VT emulator

The vt100 parser crate is an external dependency, not part of the
repository.  The following emulator is modelled from the spec (section
4.2): CR resets the column, LF advances the row and scrolls into
scrollback on overflow (discarding the oldest rows beyond the capacity),
CSI SGR sequences set colors and attributes, printable characters write
styled cells, other control bytes and unknown sequences are skipped.  It
covers the fragment exercised by the concrete scenarios (narrow
printable characters, CR, LF, SGR); wide glyphs, cursor movement and
erase sequences are not modelled. -/

/-- Modelled from the spec: the mutable state of the embedded VT-100
emulator (grid of the live view, retained scrollback rows, cursor, and
current SGR attributes). -/
structure EmuSt where
  rows : Nat
  cols : Nat
  maxSb : Nat
  sb : List (List Cell)
  grid : List (List Cell)
  curRow : Nat
  curCol : Nat
  fg : Color
  bg : Color
  bold : Bool
  dim : Bool
  italic : Bool
  underline : Bool
  inverse : Bool

/-- A blank cell: empty contents, default style. -/
def blankCell : Cell :=
  { contents := [], wide_continuation := false, fgcolor := Color.Default,
    bgcolor := Color.Default, bold := false, dim := false, italic := false,
    underline := false, inverse := false }

/-- Modelled from the spec: fresh emulator with a blank grid. -/
def initEmu (rows cols maxSb : Nat) : EmuSt :=
  { rows := rows, cols := cols, maxSb := maxSb, sb := [],
    grid := List.replicate rows (List.replicate cols blankCell),
    curRow := 0, curCol := 0, fg := Color.Default, bg := Color.Default,
    bold := false, dim := false, italic := false, underline := false,
    inverse := false }

/-- Write a cell into the grid at the given row and column. -/
def setGrid (g : List (List Cell)) (r c : Nat) (cell : Cell) : List (List Cell) :=
  g.set r ((g.getD r []).set c cell)

/-- Modelled from the spec: LF advances the row; on overflow the top grid
row moves into scrollback (dropping the oldest rows beyond the capacity)
and a blank row enters at the bottom. -/
def lineFeed (st : EmuSt) : EmuSt :=
  if st.curRow + 1 < st.rows then { st with curRow := st.curRow + 1 }
  else
    let scrolled := st.grid.getD 0 []
    let sb1 := st.sb ++ [scrolled]
    let sb2 := if st.maxSb < sb1.length then sb1.drop (sb1.length - st.maxSb) else sb1
    { st with
      sb := sb2
      grid := st.grid.drop 1 ++ [List.replicate st.cols blankCell]
      curRow := st.rows - 1 }

/-- Modelled from the spec: write one printable character with the current
attributes, wrapping when the column overflows. -/
def printChar (st : EmuSt) (c : Char) : EmuSt :=
  let st := if st.cols ≤ st.curCol then { lineFeed st with curCol := 0 } else st
  let cell : Cell :=
    { contents := [c], wide_continuation := false, fgcolor := st.fg,
      bgcolor := st.bg, bold := st.bold, dim := st.dim, italic := st.italic,
      underline := st.underline, inverse := st.inverse }
  { st with
    grid := setGrid st.grid st.curRow st.curCol cell
    curCol := st.curCol + 1 }

/-- Modelled from the spec: apply one SGR parameter list. -/
def applySgr (st : EmuSt) : List Nat → EmuSt
  | [] => st
  | 0 :: rest =>
    applySgr
      { st with
        fg := Color.Default
        bg := Color.Default
        bold := false
        dim := false
        italic := false
        underline := false
        inverse := false } rest
  | 1 :: rest => applySgr { st with bold := true } rest
  | 2 :: rest => applySgr { st with dim := true } rest
  | 3 :: rest => applySgr { st with italic := true } rest
  | 4 :: rest => applySgr { st with underline := true } rest
  | 7 :: rest => applySgr { st with inverse := true } rest
  | 38 :: 5 :: n :: rest => applySgr { st with fg := Color.Idx n } rest
  | 48 :: 5 :: n :: rest => applySgr { st with bg := Color.Idx n } rest
  | 38 :: 2 :: r :: g :: b :: rest => applySgr { st with fg := Color.Rgb r g b } rest
  | 48 :: 2 :: r :: g :: b :: rest => applySgr { st with bg := Color.Rgb r g b } rest
  | p :: rest =>
    if 30 ≤ p ∧ p ≤ 37 then applySgr { st with fg := Color.Idx (p - 30) } rest
    else if p = 39 then applySgr { st with fg := Color.Default } rest
    else if 40 ≤ p ∧ p ≤ 47 then applySgr { st with bg := Color.Idx (p - 40) } rest
    else if p = 49 then applySgr { st with bg := Color.Default } rest
    else if 90 ≤ p ∧ p ≤ 97 then applySgr { st with fg := Color.Idx (p - 90 + 8) } rest
    else if 100 ≤ p ∧ p ≤ 107 then applySgr { st with bg := Color.Idx (p - 100 + 8) } rest
    else applySgr st rest

/-- Take CSI parameter and intermediate bytes; the remainder starts at the
final byte. -/
def takeParams : List Nat → List Nat × List Nat
  | [] => ([], [])
  | b :: rest =>
    if (0x20 ≤ b ∧ b ≤ 0x3F) then
      let pr := takeParams rest
      (b :: pr.1, pr.2)
    else ([], b :: rest)

/-- Fold a run of ASCII digit bytes into a number (non-digits ignored). -/
def natOfDigitBytes (l : List Nat) : Nat :=
  l.foldl (fun acc b => if 48 ≤ b ∧ b ≤ 57 then acc * 10 + (b - 48) else acc) 0

/-- Split parameter bytes at semicolons. -/
def splitSemi : List Nat → List (List Nat)
  | [] => [[]]
  | b :: rest =>
    if b = 59 then [] :: splitSemi rest
    else
      match splitSemi rest with
      | [] => [[b]]
      | h :: t => (b :: h) :: t

/-- Parse SGR parameters; an empty sequence means reset. -/
def parseParams (l : List Nat) : List Nat :=
  match l with
  | [] => [0]
  | _ => (splitSemi l).map natOfDigitBytes

/-- Modelled from the spec: feed a byte stream through the emulator.
ESC [ starts a CSI sequence (only the SGR final byte `m` has an effect);
CR and LF move the cursor; printable ASCII and two-byte UTF-8 sequences
write cells; remaining control bytes are skipped. -/
def feedBytes : Nat → EmuSt → List Nat → EmuSt
  | 0, st, _ => st
  | _ + 1, st, [] => st
  | fuel + 1, st, b :: rest =>
    if b = 27 then
      match rest with
      | 91 :: rest2 =>
        let pr := takeParams rest2
        match pr.2 with
        | [] => st
        | fb :: rest3 =>
          let st' := if fb = 109 then applySgr st (parseParams pr.1) else st
          feedBytes fuel st' rest3
      | _ :: rest2 => feedBytes fuel st rest2
      | [] => st
    else if b = 13 then feedBytes fuel { st with curCol := 0 } rest
    else if b = 10 then feedBytes fuel (lineFeed st) rest
    else if b < 32 then feedBytes fuel st rest
    else if b < 128 then feedBytes fuel (printChar st (Char.ofNat b)) rest
    else if 194 ≤ b ∧ b < 224 then
      match rest with
      | b2 :: rest2 =>
        feedBytes fuel (printChar st (Char.ofNat ((b - 192) * 64 + (b2 - 128)))) rest2
      | [] => st
    else feedBytes fuel st rest

/-- Modelled from the spec: view the emulator state through the abstract
screen interface.  At scrollback offset `n` the viewport starts
`n` rows above the live view inside the linearized history
`sb ++ grid`. -/
def toVtScreen (st : EmuSt) : VtScreen :=
  { scrollbackTotal := st.sb.length,
    cell := fun offset row col =>
      match (st.sb ++ st.grid).get? (st.sb.length - offset + row) with
      | none => none
      | some r => r.get? col }

/-- Default scrollback capacity (src/terminal.rs). -/
def DEFAULT_MAX_SCROLLBACK_LINES : Nat := 200000

/-- Process a byte stream (src/terminal.rs `process_bytes`): feed the
spec-modelled emulator, then reconstruct the screen. -/
def process_bytes (pipe_data : KittyPipeData) (data : List Nat)
    (palette : List Nat) (max_scrollback_lines : Nat) : ProcessedScreen :=
  processScreen
    (toVtScreen (feedBytes (data.length + 1)
      (initEmu pipe_data.lines pipe_data.columns max_scrollback_lines) data))
    pipe_data palette

/-! ## Span well-formedness -/

/-- A span is well-formed for a text of byte length `n`: 1-based start,
nonempty, exclusive end within the text plus one. -/
def SpanWF (n : Nat) (s : Span) : Prop :=
  1 ≤ s.start_byte ∧ s.start_byte < s.end_byte ∧ s.end_byte ≤ n + 1

/-- Relation between consecutive spans: non-overlapping in order, and when
they touch, their faces differ. -/
def SpanRel (s t : Span) : Prop :=
  s.end_byte ≤ t.start_byte ∧ (s.end_byte = t.start_byte → s.face ≠ t.face)

/-- A processed line is well-formed. -/
def LineWF (l : ProcessedLine) : Prop :=
  (∀ s ∈ l.spans, SpanWF (byteLen l.text) s) ∧ List.Chain' SpanRel l.spans

theorem chain_head_le {s : Span} {rest : List Span}
    (hc : List.Chain' SpanRel (s :: rest))
    (hwf : ∀ u ∈ s :: rest, u.start_byte < u.end_byte) :
    ∀ t ∈ rest, s.end_byte ≤ t.start_byte := by
  induction rest generalizing s with
  | nil => intro t ht; cases ht
  | cons r0 rest' ih =>
    intro t ht
    rw [List.chain'_cons] at hc
    rcases List.mem_cons.mp ht with rfl | ht
    · exact hc.1.1
    · have h2 := ih hc.2 (fun u hu => hwf u (List.mem_cons_of_mem s hu)) t ht
      have hr0 : r0.start_byte < r0.end_byte :=
        hwf r0 (List.mem_cons_of_mem s (List.mem_cons_self r0 rest'))
      exact Nat.le_trans hc.1.1 (Nat.le_trans (Nat.le_of_lt hr0) h2)

theorem clampLast_head (maxB : Nat) (t : Span) (l : List Span) :
    ∃ t' l', clampLast maxB (t :: l) = t' :: l' ∧
      t'.start_byte = t.start_byte ∧ t'.face = t.face := by
  cases l with
  | nil =>
    refine ⟨if maxB < t.end_byte then { t with end_byte := maxB } else t, [], rfl, ?_, ?_⟩ <;>
      (split <;> rfl)
  | cons u l' => exact ⟨t, clampLast maxB (u :: l'), rfl, rfl, rfl⟩

theorem filter_start_nil {m : Nat} {l : List Span}
    (h : ∀ s ∈ l, m + 1 ≤ s.start_byte) :
    l.filter (fun s => decide (s.start_byte < m + 1)) = [] := by
  induction l with
  | nil => rfl
  | cons a l ih =>
    rw [List.filter_cons_of_neg]
    · exact ih (fun s hs => h s (List.mem_cons_of_mem a hs))
    · simpa using Nat.not_lt.mpr (h a (List.mem_cons_self a l))

theorem filterClamp_wf (spans : List Span) (n m : Nat) (_hmn : m ≤ n)
    (hwf : ∀ s ∈ spans, SpanWF n s) (hc : List.Chain' SpanRel spans) :
    (∀ s ∈ clampLast (m + 1) (spans.filter (fun s => decide (s.start_byte < m + 1))),
      SpanWF m s) ∧
    List.Chain' SpanRel
      (clampLast (m + 1) (spans.filter (fun s => decide (s.start_byte < m + 1)))) := by
  induction spans with
  | nil => exact ⟨fun s hs => absurd hs (by simp [clampLast]), by simp [clampLast]⟩
  | cons s rest ih =>
    have hs_wf : SpanWF n s := hwf s (List.mem_cons_self s rest)
    have hrest_wf : ∀ u ∈ rest, SpanWF n u := fun u hu => hwf u (List.mem_cons_of_mem s hu)
    have hc_rest : List.Chain' SpanRel rest := hc.tail
    by_cases hs : s.start_byte < m + 1
    · rw [List.filter_cons_of_pos (by simpa using hs)]
      cases hfr : rest.filter (fun s => decide (s.start_byte < m + 1)) with
      | nil =>
        constructor
        · intro u hu
          simp only [clampLast, List.mem_singleton] at hu
          subst hu
          split
          · exact ⟨hs_wf.1, by simpa using hs, Nat.le_refl _⟩
          · exact ⟨hs_wf.1, hs_wf.2.1, by omega⟩
        · simp only [clampLast]
          exact List.chain'_singleton _
      | cons t fr' =>
        have ht_mem : t ∈ rest.filter (fun s => decide (s.start_byte < m + 1)) := by
          rw [hfr]; exact List.mem_cons_self t fr'
        have ht_rest : t ∈ rest := (List.mem_filter.mp ht_mem).1
        have ht_lt : t.start_byte < m + 1 := by
          have := (List.mem_filter.mp ht_mem).2; simpa using this
        have hle : s.end_byte ≤ t.start_byte :=
          chain_head_le hc (fun u hu => (hwf u hu).2.1) t ht_rest
        have hrel_st : SpanRel s t := by
          cases rest with
          | nil => cases ht_rest
          | cons r0 rest' =>
            by_cases hr0 : r0.start_byte < m + 1
            · have : t = r0 := by
                rw [List.filter_cons_of_pos (by simpa using hr0)] at hfr
                exact (List.cons_eq_cons.mp hfr.symm).1
              rw [this]
              exact (List.chain'_cons.mp hc).1
            · exfalso
              have hr0_wf := hrest_wf r0 (List.mem_cons_self r0 rest')
              have hrest' : ∀ u ∈ rest', m + 1 ≤ u.start_byte := by
                intro u hu
                have h1 := chain_head_le hc_rest (fun v hv => (hrest_wf v hv).2.1) u hu
                have h2 := hr0_wf.2.1
                omega
              rw [List.filter_cons_of_neg (by simpa using hr0),
                filter_start_nil hrest'] at hfr
              exact List.noConfusion hfr
        have ihc := ih hrest_wf hc_rest
        rw [hfr] at ihc
        obtain ⟨t', l', heq, hst, hfc⟩ := clampLast_head (m + 1) t fr'
        constructor
        · intro u hu
          simp only [clampLast] at hu
          rcases List.mem_cons.mp hu with hu | hu
          · subst hu
            exact ⟨hs_wf.1, hs_wf.2.1, by omega⟩
          · exact ihc.1 u hu
        · show List.Chain' SpanRel (s :: clampLast (m + 1) (t :: fr'))
          rw [heq]
          rw [List.chain'_cons]
          refine ⟨⟨by rw [hst]; exact hle, ?_⟩, by rw [← heq]; exact ihc.2⟩
          intro he
          rw [hst] at he
          rw [hfc]
          exact hrel_st.2 he
    · have hall : ∀ u ∈ s :: rest, m + 1 ≤ u.start_byte := by
        intro u hu
        rcases List.mem_cons.mp hu with hu | hu
        · subst hu; omega
        · have h1 := chain_head_le hc (fun v hv => (hwf v hv).2.1) u hu
          have := hs_wf.2.1
          omega
      rw [filter_start_nil hall]
      exact ⟨fun u hu => absurd hu (by simp [clampLast]), by simp [clampLast]⟩

theorem byteLen_padCell_pos (l : List Char) : 1 ≤ byteLen (padCell l) := by
  unfold padCell
  split
  · decide
  · rename_i h
    cases l with
    | nil => exact absurd rfl h
    | cons c cs => exact byteLen_cons_pos c cs

theorem mem_of_getLast?_eq {α : Type} {l : List α} {x : α}
    (h : l.getLast? = some x) : x ∈ l := by
  obtain ⟨hne, rfl⟩ := List.mem_getLast?_eq_getLast (show x ∈ l.getLast? from h)
  exact List.getLast_mem hne

/-- Invariant maintained over the column walk. -/
def RowInv (st : RowSt) : Prop :=
  1 ≤ st.sstart ∧
  st.sstart ≤ byteLen st.text + 1 ∧
  (∀ s ∈ st.spans, 1 ≤ s.start_byte ∧ s.start_byte < s.end_byte ∧ s.end_byte ≤ st.sstart) ∧
  List.Chain' SpanRel st.spans ∧
  (∀ f, st.cur = some f → st.sstart ≤ byteLen st.text) ∧
  (∀ s, st.spans.getLast? = some s → s.end_byte = st.sstart →
    st.sstart ≤ byteLen st.text ∧ ∀ f, st.cur = some f → s.face ≠ f) ∧
  (∀ v, st.ccol = some v → 1 ≤ v)

theorem rowInv_init : RowInv rowInit := by
  refine ⟨Nat.le_refl 1, by simp [rowInit, byteLen], ?_, ?_, ?_, ?_, ?_⟩ <;>
    simp [rowInit]

theorem rowStep_same (palette : List Nat) (cx : Nat) (icl : Bool) (col : Nat)
    (cell : Cell) (st : RowSt) (h : cell_face cell palette = st.cur) :
    rowStep palette cx icl col cell st =
      { text := st.text ++ padCell cell.contents
        spans := st.spans
        cur := st.cur
        sstart := st.sstart
        ccol := if icl ∧ col = cx then some (byteLen st.text + 1) else st.ccol } := by
  simp [rowStep, h]

theorem rowStep_change_none (palette : List Nat) (cx : Nat) (icl : Bool) (col : Nat)
    (cell : Cell) (st : RowSt) (hne : cell_face cell palette ≠ st.cur)
    (hcur : st.cur = none) :
    rowStep palette cx icl col cell st =
      { text := st.text ++ padCell cell.contents
        spans := st.spans
        cur := cell_face cell palette
        sstart := byteLen st.text + 1
        ccol := if icl ∧ col = cx then some (byteLen st.text + 1) else st.ccol } := by
  have hne' : cell_face cell palette ≠ none := by rw [← hcur]; exact hne
  simp [rowStep, hcur, hne']

theorem rowStep_change_some (palette : List Nat) (cx : Nat) (icl : Bool) (col : Nat)
    (cell : Cell) (st : RowSt) (f : List Char) (hne : cell_face cell palette ≠ st.cur)
    (hcur : st.cur = some f) (hlt : st.sstart < byteLen st.text + 1) :
    rowStep palette cx icl col cell st =
      { text := st.text ++ padCell cell.contents
        spans := st.spans ++
          [{ start_byte := st.sstart, end_byte := byteLen st.text + 1, face := f }]
        cur := cell_face cell palette
        sstart := byteLen st.text + 1
        ccol := if icl ∧ col = cx then some (byteLen st.text + 1) else st.ccol } := by
  have hne' : cell_face cell palette ≠ some f := by rw [← hcur]; exact hne
  simp [rowStep, hcur, hne', hlt]

theorem rowStep_inv (palette : List Nat) (cx : Nat) (icl : Bool) (col : Nat)
    (cell : Cell) (st : RowSt) (h : RowInv st) :
    RowInv (rowStep palette cx icl col cell st) := by
  obtain ⟨h1, h2, h3, h4, h5, h6, h7⟩ := h
  have hk := byteLen_padCell_pos cell.contents
  have hlen : byteLen (st.text ++ padCell cell.contents) =
      byteLen st.text + byteLen (padCell cell.contents) := byteLen_append _ _
  have hcc : ∀ v,
      (if icl ∧ col = cx then some (byteLen st.text + 1) else st.ccol) = some v →
      1 ≤ v := by
    intro v hv
    split at hv
    · have := Option.some.inj hv; omega
    · exact h7 v hv
  by_cases hface : cell_face cell palette = st.cur
  · rw [rowStep_same palette cx icl col cell st hface]
    refine ⟨h1, ?_, h3, h4, ?_, ?_, hcc⟩
    · dsimp only; omega
    · intro f hf
      have := h5 f hf
      dsimp only
      omega
    · intro s hs he
      dsimp only at hs he ⊢
      have := h6 s hs he
      exact ⟨by omega, this.2⟩
  · cases hcur : st.cur with
    | none =>
      rw [rowStep_change_none palette cx icl col cell st hface hcur]
      refine ⟨?_, ?_, ?_, h4, ?_, ?_, hcc⟩
      · dsimp only; omega
      · dsimp only; omega
      · intro s hs
        dsimp only at hs ⊢
        have := h3 s hs
        omega
      · intro f _
        dsimp only
        omega
      · intro s hs he
        dsimp only at hs he ⊢
        have hmem := mem_of_getLast?_eq hs
        have hse := (h3 s hmem).2.2
        have heq : s.end_byte = st.sstart := by omega
        have := (h6 s hs heq).1
        omega
    | some f =>
      have hlt : st.sstart < byteLen st.text + 1 :=
        Nat.lt_succ_of_le (h5 f hcur)
      rw [rowStep_change_some palette cx icl col cell st f hface hcur hlt]
      have hlast : ∀ x, st.spans.getLast? = some x → x.end_byte ≤ st.sstart :=
        fun x hx => (h3 x (mem_of_getLast?_eq hx)).2.2
      refine ⟨?_, ?_, ?_, ?_, ?_, ?_, hcc⟩
      · dsimp only; omega
      · dsimp only; omega
      · intro s hs
        dsimp only at hs ⊢
        rcases List.mem_append.mp hs with hs | hs
        · have := h3 s hs
          omega
        · rw [List.mem_singleton] at hs
          subst hs
          dsimp only
          exact ⟨h1, by omega, Nat.le_refl _⟩
      · dsimp only
        rw [List.chain'_append]
        refine ⟨h4, List.chain'_singleton _, ?_⟩
        intro x hx y hy
        simp only [List.head?_cons, Option.mem_def, Option.some.injEq] at hy
        subst hy
        rw [Option.mem_def] at hx
        refine ⟨hlast x hx, ?_⟩
        intro he
        exact (h6 x hx he).2 f hcur
      · intro g hg
        dsimp only at hg ⊢
        omega
      · intro s hs he
        dsimp only at hs he ⊢
        rw [List.getLast?_concat] at hs
        have hs' := Option.some.inj hs
        subst hs'
        refine ⟨by omega, ?_⟩
        intro g hg
        intro hfg
        have hf : f = g := by dsimp only at hfg; exact hfg
        rw [hg] at hface
        exact hface (by rw [hcur, hf])

theorem processRowLoop_inv (cellAt : Nat → Option Cell) (palette : List Nat)
    (cx : Nat) (icl : Bool) :
    ∀ rem col st, RowInv st →
      RowInv (processRowLoop cellAt palette cx icl rem col st) := by
  intro rem
  induction rem with
  | zero => intro col st h; exact h
  | succ n ih =>
    intro col st h
    simp only [processRowLoop]
    cases hc : cellAt col with
    | none => exact h
    | some cell =>
      by_cases hw : cell.wide_continuation
      · simp only [hw, if_true]
        exact ih (col + 1) st h
      · simp only [hw]
        rw [if_neg (by simp [hw])]
        exact ih (col + 1) _ (rowStep_inv palette cx icl col cell st h)

theorem closeRow_wf (st : RowSt) (h : RowInv st) :
    (∀ s ∈ (closeRow st).spans, SpanWF (byteLen (closeRow st).text) s) ∧
    List.Chain' SpanRel (closeRow st).spans ∧
    (closeRow st).text = st.text ∧ (closeRow st).ccol = st.ccol := by
  obtain ⟨h1, h2, h3, h4, h5, h6, h7⟩ := h
  cases hcur : st.cur with
  | none =>
    simp only [closeRow, hcur]
    refine ⟨?_, h4, by trivial, by trivial⟩
    intro s hs
    have := h3 s hs
    exact ⟨this.1, this.2.1, by omega⟩
  | some f =>
    have hlt : st.sstart < byteLen st.text + 1 := Nat.lt_succ_of_le (h5 f hcur)
    simp only [closeRow, hcur, if_pos hlt]
    refine ⟨?_, ?_, by trivial, by trivial⟩
    · intro s hs
      try dsimp only at hs
      rcases List.mem_append.mp hs with hs | hs
      · have := h3 s hs
        exact ⟨this.1, this.2.1, by omega⟩
      · rw [List.mem_singleton] at hs
        subst hs
        exact ⟨h1, hlt, Nat.le_refl _⟩
    · dsimp only
      rw [List.chain'_append]
      refine ⟨h4, List.chain'_singleton _, ?_⟩
      intro x hx y hy
      simp only [List.head?_cons, Option.mem_def, Option.some.injEq] at hy
      subst hy
      rw [Option.mem_def] at hx
      refine ⟨(h3 x (mem_of_getLast?_eq hx)).2.2, ?_⟩
      intro he
      exact (h6 x hx he).2 f hcur

theorem trimRow_wf (l : ProcessedLine) (h : LineWF l) : LineWF (trimRow l) := by
  obtain ⟨hwf, hc⟩ := h
  unfold trimRow
  by_cases hlt : byteLen (rustTrimEnd l.text) < byteLen l.text
  · rw [if_pos hlt]
    have hfc := filterClamp_wf l.spans (byteLen l.text) (byteLen (rustTrimEnd l.text))
      (Nat.le_of_lt hlt) hwf hc
    exact ⟨fun s hs => hfc.1 s hs, hfc.2⟩
  · rw [if_neg hlt]
    exact ⟨hwf, hc⟩

theorem process_row_fst_wf (cellAt : Nat → Option Cell) (cols cx : Nat)
    (icl : Bool) (palette : List Nat) :
    LineWF (process_row cellAt cols cx icl palette).1 := by
  have hinv := processRowLoop_inv cellAt palette cx icl cols 0 rowInit rowInv_init
  have hcw := closeRow_wf _ hinv
  unfold process_row buildRow
  dsimp only
  exact trimRow_wf _ ⟨hcw.1, hcw.2.1⟩

theorem process_row_ccol (cellAt : Nat → Option Cell) (cols cx : Nat)
    (icl : Bool) (palette : List Nat) :
    ∀ v, (process_row cellAt cols cx icl palette).2 = some v → 1 ≤ v := by
  have hinv := processRowLoop_inv cellAt palette cx icl cols 0 rowInit rowInv_init
  intro v hv
  refine hinv.2.2.2.2.2.2 v ?_
  have hcc : (closeRow (processRowLoop cellAt palette cx icl cols 0 rowInit)).ccol =
      (processRowLoop cellAt palette cx icl cols 0 rowInit).ccol := by
    unfold closeRow
    rfl
  rw [← hcc]
  exact hv

/-! ## Screen-level invariants -/

/-- Valid grid metadata (spec section 3). -/
def ValidPipe (pd : KittyPipeData) : Prop :=
  1 ≤ pd.lines ∧ 1 ≤ pd.columns ∧ pd.cursor_x < pd.columns ∧ pd.cursor_y < pd.lines

instance (pd : KittyPipeData) : Decidable (ValidPipe pd) :=
  inferInstanceAs
    (Decidable (1 ≤ pd.lines ∧ 1 ≤ pd.columns ∧ pd.cursor_x < pd.columns ∧
      pd.cursor_y < pd.lines))

theorem push_row_lines_wf (cellAt : Nat → Option Cell) (pd : KittyPipeData)
    (colv : Nat) (palette : List Nat) (st : List ProcessedLine × CursorPosition)
    (h : ∀ l ∈ st.1, LineWF l) :
    ∀ l ∈ (push_row cellAt pd colv palette st).1, LineWF l := by
  intro l hl
  unfold push_row at hl
  dsimp only at hl
  rcases List.mem_append.mp hl with hl | hl
  · exact h l hl
  · rw [List.mem_singleton] at hl
    subst hl
    exact process_row_fst_wf cellAt pd.columns pd.cursor_x _ palette

theorem push_row_cursor_pos (cellAt : Nat → Option Cell) (pd : KittyPipeData)
    (colv : Nat) (palette : List Nat) (st : List ProcessedLine × CursorPosition)
    (h : 1 ≤ st.2.line ∧ 1 ≤ st.2.col) :
    1 ≤ (push_row cellAt pd colv palette st).2.line ∧
    1 ≤ (push_row cellAt pd colv palette st).2.col := by
  unfold push_row
  dsimp only
  constructor
  · split
    · omega
    · exact h.1
  · cases hc : (process_row cellAt pd.columns pd.cursor_x (st.1.length + 1 = colv)
      palette).2 with
    | none => exact h.2
    | some v => exact process_row_ccol cellAt pd.columns pd.cursor_x _ palette v hc

theorem push_row_length (cellAt : Nat → Option Cell) (pd : KittyPipeData)
    (colv : Nat) (palette : List Nat) (st : List ProcessedLine × CursorPosition) :
    (push_row cellAt pd colv palette st).1.length = st.1.length + 1 := by
  unfold push_row
  simp

theorem push_row_line_eq (cellAt : Nat → Option Cell) (pd : KittyPipeData)
    (colv : Nat) (palette : List Nat) (st : List ProcessedLine × CursorPosition) :
    (push_row cellAt pd colv palette st).2.line =
      if st.1.length + 1 = colv then st.1.length + 1 else st.2.line := rfl

theorem foldPush_lines_wf {β : Type} (xs : List β) (g : β → Nat → Option Cell)
    (pd : KittyPipeData) (colv : Nat) (palette : List Nat) :
    ∀ st, (∀ l ∈ st.1, LineWF l) →
      ∀ l ∈ (xs.foldl (fun st x => push_row (g x) pd colv palette st) st).1, LineWF l := by
  induction xs with
  | nil => intro st h; simpa using h
  | cons x xs ih =>
    intro st h
    rw [List.foldl_cons]
    exact ih _ (push_row_lines_wf (g x) pd colv palette st h)

theorem foldPush_cursor_pos {β : Type} (xs : List β) (g : β → Nat → Option Cell)
    (pd : KittyPipeData) (colv : Nat) (palette : List Nat) :
    ∀ st, 1 ≤ st.2.line ∧ 1 ≤ st.2.col →
      1 ≤ (xs.foldl (fun st x => push_row (g x) pd colv palette st) st).2.line ∧
      1 ≤ (xs.foldl (fun st x => push_row (g x) pd colv palette st) st).2.col := by
  induction xs with
  | nil => intro st h; simpa using h
  | cons x xs ih =>
    intro st h
    rw [List.foldl_cons]
    exact ih _ (push_row_cursor_pos (g x) pd colv palette st h)

theorem foldPush_length {β : Type} (xs : List β) (g : β → Nat → Option Cell)
    (pd : KittyPipeData) (colv : Nat) (palette : List Nat) :
    ∀ st, (xs.foldl (fun st x => push_row (g x) pd colv palette st) st).1.length =
      st.1.length + xs.length := by
  induction xs with
  | nil => intro st; simp
  | cons x xs ih =>
    intro st
    rw [List.foldl_cons, ih _, push_row_length]
    simp
    omega

theorem foldPush_track {β : Type} (xs : List β) (g : β → Nat → Option Cell)
    (pd : KittyPipeData) (colv : Nat) (palette : List Nat) :
    ∀ st, (colv ≤ st.1.length → st.2.line = colv) →
      colv ≤ (xs.foldl (fun st x => push_row (g x) pd colv palette st) st).1.length →
      (xs.foldl (fun st x => push_row (g x) pd colv palette st) st).2.line = colv := by
  induction xs with
  | nil => intro st h; exact h
  | cons x xs ih =>
    intro st h
    rw [List.foldl_cons]
    apply ih
    intro hle
    rw [push_row_length] at hle
    rw [push_row_line_eq]
    by_cases he : st.1.length + 1 = colv
    · rw [if_pos he]; exact he
    · rw [if_neg he]
      exact h (by omega)

theorem mem_of_mem_dropWhile {α : Type} (p : α → Bool) :
    ∀ (l : List α) (a : α), a ∈ l.dropWhile p → a ∈ l := by
  intro l
  induction l with
  | nil => intro a h; simp at h
  | cons x xs ih =>
    intro a h
    rw [List.dropWhile_cons] at h
    split at h
    · exact List.mem_cons_of_mem x (ih a h)
    · exact h

theorem popTrailingEmpty_subset (ls : List ProcessedLine) :
    ∀ l ∈ popTrailingEmpty ls, l ∈ ls := by
  intro l hl
  unfold popTrailingEmpty at hl
  rw [List.mem_reverse] at hl
  have := mem_of_mem_dropWhile _ _ _ hl
  rw [List.mem_reverse] at this
  exact this

theorem length_dropWhile_le' {α : Type} (p : α → Bool) :
    ∀ l : List α, (l.dropWhile p).length ≤ l.length := by
  intro l
  induction l with
  | nil => simp
  | cons x xs ih =>
    rw [List.dropWhile_cons]
    split
    · exact Nat.le_succ_of_le ih
    · exact Nat.le_refl _

theorem popTrailingEmpty_length_le (ls : List ProcessedLine) :
    (popTrailingEmpty ls).length ≤ ls.length := by
  unfold popTrailingEmpty
  rw [List.length_reverse]
  calc (ls.reverse.dropWhile _).length ≤ ls.reverse.length :=
        length_dropWhile_le' _ _
    _ = ls.length := List.length_reverse ls

theorem pushAllRows_eq (screen : VtScreen) (pd : KittyPipeData) (palette : List Nat) :
    pushAllRows screen pd palette =
      (List.range screen.scrollbackTotal).reverse.foldl
        (fun st offset => push_row (fun col => screen.cell offset (pd.lines - 1) col) pd
          (screen.scrollbackTotal + pd.cursor_y + 1) palette st)
        ((List.range pd.lines).foldl
          (fun st row => push_row (fun col => screen.cell screen.scrollbackTotal row col) pd
            (screen.scrollbackTotal + pd.cursor_y + 1) palette st)
          ([], { line := 1, col := 1 })) := rfl

theorem pushAllRows_length (screen : VtScreen) (pd : KittyPipeData) (palette : List Nat) :
    (pushAllRows screen pd palette).1.length = pd.lines + screen.scrollbackTotal := by
  rw [pushAllRows_eq]
  rw [foldPush_length, foldPush_length]
  simp

theorem pushAllRows_cursor_pos (screen : VtScreen) (pd : KittyPipeData)
    (palette : List Nat) :
    1 ≤ (pushAllRows screen pd palette).2.line ∧
    1 ≤ (pushAllRows screen pd palette).2.col := by
  rw [pushAllRows_eq]
  apply foldPush_cursor_pos
  apply foldPush_cursor_pos
  exact ⟨Nat.le_refl 1, Nat.le_refl 1⟩

theorem pushAllRows_lines_wf (screen : VtScreen) (pd : KittyPipeData)
    (palette : List Nat) :
    ∀ l ∈ (pushAllRows screen pd palette).1, LineWF l := by
  rw [pushAllRows_eq]
  apply foldPush_lines_wf
  apply foldPush_lines_wf
  intro l hl
  simp at hl

theorem pushAllRows_track (screen : VtScreen) (pd : KittyPipeData)
    (palette : List Nat)
    (h : screen.scrollbackTotal + pd.cursor_y + 1 ≤ pd.lines + screen.scrollbackTotal) :
    (pushAllRows screen pd palette).2.line =
      screen.scrollbackTotal + pd.cursor_y + 1 := by
  rw [pushAllRows_eq]
  apply foldPush_track
  · apply foldPush_track
    intro hle
    simp at hle
  · rw [foldPush_length, foldPush_length]
    simp
    omega

theorem processScreen_lines_eq (screen : VtScreen) (pd : KittyPipeData)
    (palette : List Nat) :
    (processScreen screen pd palette).lines =
      popTrailingEmpty (pushAllRows screen pd palette).1 := rfl

theorem processScreen_cursor_eq (screen : VtScreen) (pd : KittyPipeData)
    (palette : List Nat) :
    (processScreen screen pd palette).cursor =
      (if (popTrailingEmpty (pushAllRows screen pd palette).1).length <
          (pushAllRows screen pd palette).2.line then
        ({ line := max (popTrailingEmpty (pushAllRows screen pd palette).1).length 1,
           col := 1 } : CursorPosition)
      else (pushAllRows screen pd palette).2) := rfl

theorem processScreen_lines_wf (screen : VtScreen) (pd : KittyPipeData)
    (palette : List Nat) :
    ∀ line ∈ (processScreen screen pd palette).lines, LineWF line := by
  intro line hl
  rw [processScreen_lines_eq] at hl
  exact pushAllRows_lines_wf screen pd palette line (popTrailingEmpty_subset _ line hl)

/-! ## Claim C1: cursor containment -/

/-- Cursor containment exactly as the spec states it, including the
per-line byte-length bound on the cursor column. -/
def CursorContainment (sc : ProcessedScreen) : Prop :=
  1 ≤ sc.cursor.line ∧ sc.cursor.line ≤ max 1 sc.lines.length ∧
  1 ≤ sc.cursor.col ∧
  (0 < sc.lines.length →
    sc.cursor.col ≤
      byteLen ((sc.lines.getD (sc.cursor.line - 1) { text := [], spans := [] }).text) + 1) ∧
  (sc.lines.length = 0 → sc.cursor.col = 1)

instance (sc : ProcessedScreen) : Decidable (CursorContainment sc) :=
  inferInstanceAs (Decidable (_ ∧ _ ∧ _ ∧ _ ∧ _))

/-- Byte stream `"Hi"`. -/
def hiBytes : List Nat := [72, 105]

/-- Valid grid metadata with the cursor inside the trailing blank region of
the first row: 2x6 grid, cursor at column 4, row 0. -/
def pdHi : KittyPipeData :=
  { cursor_x := 4, cursor_y := 0, lines := 2, columns := 6 }

/-- Claim C1, as stated, fails: on input `"Hi"` with valid metadata the
cursor column is 5 (it was assigned inside the blank padding that the
trailing trim later removed) while the first line's trimmed text `"Hi"`
allows at most column 3. -/
theorem cursor_containment_counterexample :
    ValidPipe pdHi ∧
    ¬ CursorContainment
        (process_bytes pdHi hiBytes DEFAULT_PALETTE DEFAULT_MAX_SCROLLBACK_LINES) := by
  constructor
  · decide
  · intro h
    have h4 := h.2.2.2.1 (by decide)
    revert h4
    decide

/-- Claim C1 (amended): for every emulator screen and valid grid metadata,
the reconstructed cursor satisfies `1 ≤ line ≤ max(1, #lines)` and
`col ≥ 1`, and `col = 1` when there are no lines.  (The original bound
`col ≤ byte length of the cursor line plus one` does not hold when the
cursor column was assigned inside trailing whitespace that the per-row
trim removed; see `cursor_containment_counterexample`.) -/
theorem cursor_containment_amended (screen : VtScreen) (pd : KittyPipeData)
    (palette : List Nat) (_hv : ValidPipe pd) :
    1 ≤ (processScreen screen pd palette).cursor.line ∧
    (processScreen screen pd palette).cursor.line ≤
      max 1 (processScreen screen pd palette).lines.length ∧
    1 ≤ (processScreen screen pd palette).cursor.col ∧
    ((processScreen screen pd palette).lines.length = 0 →
      (processScreen screen pd palette).cursor.col = 1) := by
  have hpos := pushAllRows_cursor_pos screen pd palette
  rw [processScreen_cursor_eq, processScreen_lines_eq]
  by_cases hclamp : (popTrailingEmpty (pushAllRows screen pd palette).1).length <
      (pushAllRows screen pd palette).2.line
  · rw [if_pos hclamp]
    dsimp only
    refine ⟨?_, ?_, ?_, ?_⟩ <;> omega
  · rw [if_neg hclamp]
    rw [Nat.not_lt] at hclamp
    refine ⟨hpos.1, by omega, hpos.2, by omega⟩

/-- Witness for `cursor_containment_amended` at the counterexample input's
screen and metadata. -/
theorem cursor_containment_amended_witness :
    ValidPipe pdHi ∧
    (1 ≤ (processScreen (toVtScreen (feedBytes (hiBytes.length + 1)
        (initEmu pdHi.lines pdHi.columns DEFAULT_MAX_SCROLLBACK_LINES) hiBytes))
        pdHi DEFAULT_PALETTE).cursor.line ∧
     (processScreen (toVtScreen (feedBytes (hiBytes.length + 1)
        (initEmu pdHi.lines pdHi.columns DEFAULT_MAX_SCROLLBACK_LINES) hiBytes))
        pdHi DEFAULT_PALETTE).cursor.line ≤
       max 1 (processScreen (toVtScreen (feedBytes (hiBytes.length + 1)
        (initEmu pdHi.lines pdHi.columns DEFAULT_MAX_SCROLLBACK_LINES) hiBytes))
        pdHi DEFAULT_PALETTE).lines.length ∧
     1 ≤ (processScreen (toVtScreen (feedBytes (hiBytes.length + 1)
        (initEmu pdHi.lines pdHi.columns DEFAULT_MAX_SCROLLBACK_LINES) hiBytes))
        pdHi DEFAULT_PALETTE).cursor.col ∧
     ((processScreen (toVtScreen (feedBytes (hiBytes.length + 1)
        (initEmu pdHi.lines pdHi.columns DEFAULT_MAX_SCROLLBACK_LINES) hiBytes))
        pdHi DEFAULT_PALETTE).lines.length = 0 →
      (processScreen (toVtScreen (feedBytes (hiBytes.length + 1)
        (initEmu pdHi.lines pdHi.columns DEFAULT_MAX_SCROLLBACK_LINES) hiBytes))
        pdHi DEFAULT_PALETTE).cursor.col = 1)) :=
  ⟨by decide,
   cursor_containment_amended
     (toVtScreen (feedBytes (hiBytes.length + 1)
       (initEmu pdHi.lines pdHi.columns DEFAULT_MAX_SCROLLBACK_LINES) hiBytes))
     pdHi DEFAULT_PALETTE (by decide)⟩

/-! ## Claim C2: cursor output line -/

/-- Thirty lines of `"line N\r\n"` as a byte stream. -/
def scrollbackBytes : List Nat :=
  (List.range 30).foldl
    (fun acc i => acc ++ (str "line ").map Char.toNat ++ (natChars i).map Char.toNat
      ++ [13, 10]) []

/-- 10x80 grid with the cursor on row 5. -/
def pdScrollback : KittyPipeData :=
  { cursor_x := 0, cursor_y := 5, lines := 10, columns := 80 }

/-- The emulator screen for the scrollback scenario. -/
def scrollbackScreen : VtScreen :=
  toVtScreen (feedBytes (scrollbackBytes.length + 1)
    (initEmu pdScrollback.lines pdScrollback.columns DEFAULT_MAX_SCROLLBACK_LINES)
    scrollbackBytes)

set_option maxRecDepth 100000 in
/-- Claim C2: when the output line `scrollback_total + cursor_y + 1`
survives the whole-screen trimming, the cursor lands exactly on it; and in
the concrete scrollback scenario (30 lines of `"line N\r\n"` on a 10x80
grid with `cursor_y = 5`) the total is 21 and the cursor line 27. -/
theorem cursor_output_line_correct :
    (∀ (screen : VtScreen) (pd : KittyPipeData) (palette : List Nat),
      screen.scrollbackTotal + pd.cursor_y + 1 ≤
        (processScreen screen pd palette).lines.length →
      (processScreen screen pd palette).cursor.line =
        screen.scrollbackTotal + pd.cursor_y + 1) ∧
    scrollbackScreen.scrollbackTotal = 21 ∧
    (process_bytes pdScrollback scrollbackBytes DEFAULT_PALETTE
      DEFAULT_MAX_SCROLLBACK_LINES).cursor.line = 27 ∧
    30 ≤ (process_bytes pdScrollback scrollbackBytes DEFAULT_PALETTE
      DEFAULT_MAX_SCROLLBACK_LINES).lines.length := by
  refine ⟨?_, by decide, by decide, by decide⟩
  intro screen pd palette h
  rw [processScreen_lines_eq] at h
  have hle : (popTrailingEmpty (pushAllRows screen pd palette).1).length ≤
      (pushAllRows screen pd palette).1.length := popTrailingEmpty_length_le _
  rw [pushAllRows_length] at hle
  have htrack := pushAllRows_track screen pd palette (by omega)
  rw [processScreen_cursor_eq]
  rw [if_neg (by omega)]
  exact htrack

set_option maxRecDepth 100000 in
/-- Witness for the quantified part of `cursor_output_line_correct` at the
scrollback scenario. -/
theorem cursor_output_line_witness :
    scrollbackScreen.scrollbackTotal + pdScrollback.cursor_y + 1 ≤
      (processScreen scrollbackScreen pdScrollback DEFAULT_PALETTE).lines.length ∧
    (processScreen scrollbackScreen pdScrollback DEFAULT_PALETTE).cursor.line =
      scrollbackScreen.scrollbackTotal + pdScrollback.cursor_y + 1 :=
  ⟨by decide,
   cursor_output_line_correct.1 scrollbackScreen pdScrollback DEFAULT_PALETTE
     (by decide)⟩

/-! ## Claim C3: span well-formedness of every line -/

/-- Executable chain check over consecutive elements. -/
def chainB {α : Type} (p : α → α → Bool) : List α → Bool
  | [] => true
  | [_] => true
  | a :: b :: rest => p a b && chainB p (b :: rest)

theorem chainB_iff_chain' {α : Type} (p : α → α → Bool) :
    ∀ l : List α, chainB p l = true ↔ List.Chain' (fun a b => p a b = true) l
  | [] => by simp [chainB]
  | [a] => by simp [chainB]
  | a :: b :: rest => by
    rw [List.chain'_cons]
    unfold chainB
    rw [Bool.and_eq_true]
    exact and_congr Iff.rfl (chainB_iff_chain' p (b :: rest))

instance chainDecidable {α : Type} (R : α → α → Prop) [DecidableRel R]
    (l : List α) : Decidable (List.Chain' R l) :=
  decidable_of_iff (chainB (fun a b => decide (R a b)) l = true)
    (Iff.trans (chainB_iff_chain' _ l)
      ⟨fun h => h.imp (fun _ _ hb => of_decide_eq_true hb),
       fun h => h.imp (fun _ _ hb => decide_eq_true hb)⟩)

/-- Claim C3 exactly as stated: per-span containment, strict ascent,
non-overlap, and distinct faces on spans that are adjacent in the span
sequence. -/
def SpansAsStated (sc : ProcessedScreen) : Prop :=
  ∀ line ∈ sc.lines,
    (∀ s ∈ line.spans,
      1 ≤ s.start_byte ∧ s.start_byte < s.end_byte ∧
        s.end_byte ≤ byteLen line.text + 1) ∧
    List.Chain' (fun s t : Span => s.start_byte < t.start_byte) line.spans ∧
    List.Chain' (fun s t : Span => s.end_byte ≤ t.start_byte) line.spans ∧
    List.Chain' (fun s t : Span => s.face ≠ t.face) line.spans

instance (sc : ProcessedScreen) : Decidable (SpansAsStated sc) :=
  inferInstanceAs (Decidable (∀ line ∈ sc.lines, _ ∧ _ ∧ _ ∧ _))

/-- Red `A`, unstyled ` B `, red `C`. -/
def facesBytes : List Nat :=
  [27, 91] ++ (str "31mA").map Char.toNat ++ [27, 91] ++ (str "0m B ").map Char.toNat
    ++ [27, 91] ++ (str "31mC").map Char.toNat

/-- 2x8 grid, cursor at the origin. -/
def pdFaces : KittyPipeData :=
  { cursor_x := 0, cursor_y := 0, lines := 2, columns := 8 }

/-- Claim C3, as stated, fails: the line `A B C` carries two spans with the
same face `rgb:CC0000,default` that are consecutive in the span sequence
(they are separated by an unstyled gap, so they never merge). -/
theorem span_adjacent_face_counterexample :
    ¬ SpansAsStated
        (process_bytes pdFaces facesBytes DEFAULT_PALETTE
          DEFAULT_MAX_SCROLLBACK_LINES) := by
  decide

theorem chain_strengthen :
    ∀ l : List Span, List.Chain' SpanRel l →
      (∀ s ∈ l, s.start_byte < s.end_byte) →
      List.Chain'
        (fun s t : Span => s.start_byte < t.start_byte ∧ s.end_byte ≤ t.start_byte ∧
          (s.end_byte = t.start_byte → s.face ≠ t.face)) l
  | [], _, _ => List.chain'_nil
  | [a], _, _ => List.chain'_singleton a
  | a :: b :: rest, hc, hlt => by
    rw [List.chain'_cons] at hc ⊢
    refine ⟨⟨?_, hc.1.1, hc.1.2⟩,
      chain_strengthen (b :: rest) hc.2
        (fun s hs => hlt s (List.mem_cons_of_mem a hs))⟩
    have ha := hlt a (List.mem_cons_self a _)
    have hab := hc.1.1
    omega

/-- Claim C3 (amended): for every emulator screen and grid metadata, every
line satisfies per-span containment (`1 ≤ start < end ≤ byte length + 1`),
spans are strictly ascending by `start_byte` and non-overlapping, and two
consecutive spans that touch (`s.end_byte = t.start_byte`) never carry an
equal face string.  (Consecutive spans separated by an unstyled gap can
repeat a face; see `span_adjacent_face_counterexample`.) -/
theorem span_invariants_amended (screen : VtScreen) (pd : KittyPipeData)
    (palette : List Nat) :
    ∀ line ∈ (processScreen screen pd palette).lines,
      (∀ s ∈ line.spans,
        1 ≤ s.start_byte ∧ s.start_byte < s.end_byte ∧
          s.end_byte ≤ byteLen line.text + 1) ∧
      List.Chain'
        (fun s t : Span => s.start_byte < t.start_byte ∧ s.end_byte ≤ t.start_byte ∧
          (s.end_byte = t.start_byte → s.face ≠ t.face)) line.spans := by
  intro line hline
  have hwf := processScreen_lines_wf screen pd palette line hline
  exact ⟨hwf.1, chain_strengthen line.spans hwf.2 (fun s hs => (hwf.1 s hs).2.1)⟩

/-- The emulator screen of the two-red-spans scenario. -/
def facesScreen : VtScreen :=
  toVtScreen (feedBytes (facesBytes.length + 1)
    (initEmu pdFaces.lines pdFaces.columns DEFAULT_MAX_SCROLLBACK_LINES) facesBytes)

/-- Witness for `span_invariants_amended` on the concrete two-red-spans
line. -/
theorem span_invariants_amended_witness :
    ((processScreen facesScreen pdFaces DEFAULT_PALETTE).lines.getD 0
        { text := [], spans := [] }) ∈
      (processScreen facesScreen pdFaces DEFAULT_PALETTE).lines ∧
    ((∀ s ∈ ((processScreen facesScreen pdFaces DEFAULT_PALETTE).lines.getD 0
        { text := [], spans := [] }).spans,
      1 ≤ s.start_byte ∧ s.start_byte < s.end_byte ∧
        s.end_byte ≤ byteLen ((processScreen facesScreen pdFaces
          DEFAULT_PALETTE).lines.getD 0 { text := [], spans := [] }).text + 1) ∧
    List.Chain'
      (fun s t : Span => s.start_byte < t.start_byte ∧ s.end_byte ≤ t.start_byte ∧
        (s.end_byte = t.start_byte → s.face ≠ t.face))
      ((processScreen facesScreen pdFaces DEFAULT_PALETTE).lines.getD 0
        { text := [], spans := [] }).spans) :=
  ⟨by decide,
   span_invariants_amended facesScreen pdFaces DEFAULT_PALETTE _ (by decide)⟩

/-! ## Claim C4: trailing trim -/

/-- Clamp of the last span expressed through `getLast?` and `dropLast`
(the spec's reading of the adjustment). -/
def clampLastSpec (maxB : Nat) (l : List Span) : List Span :=
  match l.getLast? with
  | none => []
  | some s => l.dropLast ++ [if maxB < s.end_byte then { s with end_byte := maxB } else s]

/-- The amended trim contract: trim the text with Rust `trim_end` (Unicode
whitespace), set `max_byte` to the trimmed byte length plus one, drop the
spans starting at or beyond it and clamp the last remaining span's end. -/
def trimRowSpec (l : ProcessedLine) : ProcessedLine :=
  let trimmed := rustTrimEnd l.text
  let max_byte := byteLen trimmed + 1
  { text := trimmed,
    spans := clampLastSpec max_byte (l.spans.filter (fun s => s.start_byte < max_byte)) }

theorem clampLast_eq_spec (maxB : Nat) :
    ∀ l : List Span, clampLast maxB l = clampLastSpec maxB l
  | [] => rfl
  | [s] => rfl
  | s :: t :: rest => by
    have ih := clampLast_eq_spec maxB (t :: rest)
    show s :: clampLast maxB (t :: rest) = clampLastSpec maxB (s :: t :: rest)
    rw [ih]
    cases hg : (t :: rest).getLast? with
    | none => simp at hg
    | some u =>
      unfold clampLastSpec
      rw [List.getLast?_cons_cons, hg]
      simp [List.dropLast]

theorem clampLastSpec_id (maxB : Nat) (l : List Span)
    (h : ∀ s ∈ l, s.end_byte ≤ maxB) : clampLastSpec maxB l = l := by
  unfold clampLastSpec
  cases hg : l.getLast? with
  | none => exact (List.getLast?_eq_none_iff.mp hg).symm
  | some u =>
    have hu : u ∈ l := mem_of_getLast?_eq hg
    have hue := h u hu
    dsimp only
    rw [if_neg (by omega)]
    obtain ⟨hne, rfl⟩ := List.mem_getLast?_eq_getLast (show u ∈ l.getLast? from hg)
    exact List.dropLast_append_getLast hne

theorem trimRow_eq_spec (l : ProcessedLine) (h : LineWF l) : trimRow l = trimRowSpec l := by
  unfold trimRow trimRowSpec
  by_cases hlt : byteLen (rustTrimEnd l.text) < byteLen l.text
  · rw [if_pos hlt]
    dsimp only
    rw [clampLast_eq_spec]
  · rw [if_neg hlt]
    have hble := byteLen_rustTrimEnd_le l.text
    have heq : byteLen (rustTrimEnd l.text) = byteLen l.text := by omega
    have htext : rustTrimEnd l.text = l.text := rustTrimEnd_eq_of_byteLen l.text heq
    have hfilter : l.spans.filter
        (fun s => decide (s.start_byte < byteLen (rustTrimEnd l.text) + 1)) = l.spans := by
      apply List.filter_eq_self.mpr
      intro s hs
      obtain ⟨hw1, hw2, hw3⟩ := h.1 s hs
      simp only [decide_eq_true_eq]
      omega
    have hclamp : clampLastSpec (byteLen (rustTrimEnd l.text) + 1) l.spans = l.spans := by
      apply clampLastSpec_id
      intro s hs
      obtain ⟨hw1, hw2, hw3⟩ := h.1 s hs
      omega
    dsimp only
    rw [hfilter, hclamp, htext]

theorem buildRow_wf (cellAt : Nat → Option Cell) (cols : Nat) (palette : List Nat)
    (cx : Nat) (icl : Bool) :
    LineWF { text := (buildRow cellAt cols palette cx icl).text,
             spans := (buildRow cellAt cols palette cx icl).spans } := by
  have hinv := processRowLoop_inv cellAt palette cx icl cols 0 rowInit rowInv_init
  have hcw := closeRow_wf _ hinv
  exact ⟨hcw.1, hcw.2.1⟩

/-- Bytes `"\x1b[31mHi   \x1b[0m"`. -/
def coloredBytes : List Nat :=
  [27, 91] ++ (str "31mHi   ").map Char.toNat ++ [27, 91] ++ (str "0m").map Char.toNat

/-- 24x20 grid, cursor at the origin. -/
def pdColored : KittyPipeData :=
  { cursor_x := 0, cursor_y := 0, lines := 24, columns := 20 }

set_option maxRecDepth 100000 in
/-- Claim C4 (amended): every processed row equals the built row with the
text trimmed by Rust `trim_end` (Unicode whitespace), the spans with
`start_byte ≥ max_byte` dropped and the last remaining span clamped to
`max_byte`; and the concrete trailing-colored-space scenario yields text
`"Hi"` with the single span `{1, 3, rgb:CC0000,default}`. -/
theorem trailing_trim_correct :
    (∀ (cellAt : Nat → Option Cell) (cols cx : Nat) (icl : Bool) (palette : List Nat),
      (process_row cellAt cols cx icl palette).1 =
        trimRowSpec { text := (buildRow cellAt cols palette cx icl).text,
                      spans := (buildRow cellAt cols palette cx icl).spans }) ∧
    (process_bytes pdColored coloredBytes DEFAULT_PALETTE
        DEFAULT_MAX_SCROLLBACK_LINES).lines =
      [{ text := str "Hi",
         spans := [{ start_byte := 1, end_byte := 3,
                     face := str "rgb:CC0000,default" }] }] := by
  constructor
  · intro cellAt cols cx icl palette
    have h := buildRow_wf cellAt cols palette cx icl
    exact trimRow_eq_spec _ h
  · decide

/-- Bytes `"x"` followed by U+00A0 (no-break space, UTF-8 `C2 A0`). -/
def nbspBytes : List Nat := [0x78, 0xC2, 0xA0]

/-- 2x4 grid, cursor at the origin. -/
def pdNbsp : KittyPipeData :=
  { cursor_x := 0, cursor_y := 0, lines := 2, columns := 4 }

/-- The first viewport row of the no-break-space scenario, exactly as
`process_bytes` reads it. -/
def nbspCellAt : Nat → Option Cell :=
  fun col =>
    (toVtScreen (feedBytes (nbspBytes.length + 1)
      (initEmu pdNbsp.lines pdNbsp.columns DEFAULT_MAX_SCROLLBACK_LINES) nbspBytes)).cell
      0 0 col

/-- Claim C4, as stated, fails: the claim trims trailing ASCII whitespace,
but the source trims with Rust `trim_end` (Unicode whitespace).  On the
row `x`, U+00A0, blank, blank, the processed text is `"x"` while
ASCII-only trimming of the built row would keep the no-break space. -/
theorem trailing_trim_ascii_counterexample :
    (process_row nbspCellAt pdNbsp.columns pdNbsp.cursor_x true DEFAULT_PALETTE).1.text ≠
      asciiTrimEnd
        (buildRow nbspCellAt pdNbsp.columns DEFAULT_PALETTE pdNbsp.cursor_x true).text := by
  decide

/-! ## Claim C5: color resolution -/

/-- Cube channel value: `0` for channel 0, else `55 + 40·c` (spec 4.1). -/
def cubeChannel (c : Nat) : Nat := if c = 0 then 0 else 55 + 40 * c

/-- Claim C5: `color_to_rgb` returns `none` for `Default`, the explicit
triple for `Rgb`, the palette entry at `idx*3..idx*3+3` for `idx < 16`,
the 6x6x6 cube value for `16 ≤ idx < 232`, and the grayscale ramp
`8 + 10·(idx − 232)` for `idx ≥ 232`. -/
theorem color_resolution_correct :
    (∀ palette : List Nat, color_to_rgb Color.Default palette = Except.ok none) ∧
    (∀ (r g b : Nat) (palette : List Nat),
      color_to_rgb (Color.Rgb r g b) palette = Except.ok (some (r, g, b))) ∧
    (∀ (idx : Nat) (palette : List Nat), idx < 16 →
      color_to_rgb (Color.Idx idx) palette =
        Except.ok (some (palette.getD (idx * 3) 0, palette.getD (idx * 3 + 1) 0,
          palette.getD (idx * 3 + 2) 0))) ∧
    (∀ (idx : Nat) (palette : List Nat), 16 ≤ idx → idx < 232 →
      color_to_rgb (Color.Idx idx) palette =
        Except.ok (some (cubeChannel ((idx - 16) / 36),
          cubeChannel ((idx - 16) % 36 / 6), cubeChannel ((idx - 16) % 6)))) ∧
    (∀ (idx : Nat) (palette : List Nat), 232 ≤ idx → idx ≤ 255 →
      color_to_rgb (Color.Idx idx) palette =
        Except.ok (some (8 + 10 * (idx - 232), 8 + 10 * (idx - 232),
          8 + 10 * (idx - 232)))) := by
  refine ⟨fun _ => rfl, fun _ _ _ _ => rfl, ?_, ?_, ?_⟩
  · intro idx palette h
    unfold color_to_rgb
    dsimp only
    rw [if_pos h]
  · intro idx palette h16 h232
    have hn16 : ¬ idx < 16 := by omega
    unfold color_to_rgb idx_to_rgb cubeChannel
    dsimp only
    rw [if_neg hn16, if_neg hn16, if_pos h232]
  · intro idx palette h232 _h255
    have hn16 : ¬ idx < 16 := by omega
    have hn232 : ¬ idx < 232 := by omega
    unfold color_to_rgb idx_to_rgb
    dsimp only
    rw [if_neg hn16, if_neg hn16, if_neg hn232]

/-- Witness for `color_resolution_correct` at indices 1 (palette), 196
(cube) and 232 (grayscale). -/
theorem color_resolution_witness :
    ((1 : Nat) < 16 ∧
      color_to_rgb (Color.Idx 1) DEFAULT_PALETTE =
        Except.ok (some (0xCC, 0x00, 0x00))) ∧
    ((16 : Nat) ≤ 196 ∧ (196 : Nat) < 232 ∧
      color_to_rgb (Color.Idx 196) DEFAULT_PALETTE =
        Except.ok (some (255, 0, 0))) ∧
    ((232 : Nat) ≤ 232 ∧ (232 : Nat) ≤ 255 ∧
      color_to_rgb (Color.Idx 232) DEFAULT_PALETTE =
        Except.ok (some (8, 8, 8))) := by
  refine ⟨⟨by decide, ?_⟩, ⟨by decide, by decide, ?_⟩, ⟨by decide, by decide, ?_⟩⟩
  · rw [color_resolution_correct.2.2.1 1 DEFAULT_PALETTE (by decide)]
    rfl
  · rw [color_resolution_correct.2.2.2.1 196 DEFAULT_PALETTE (by decide) (by decide)]
    rfl
  · rw [color_resolution_correct.2.2.2.2 232 DEFAULT_PALETTE (by decide) (by decide)]

/-! ## Claim C10: the cube-formula panic and its unreachability -/

/-- Claim C10: `idx_to_rgb` panics (modelled as `none`) for every
`idx < 16`, and the resolver never reaches that branch: `color_to_rgb`
returns `ok` for every color and palette. -/
theorem cube_panic_unreachable :
    (∀ idx : Nat, idx < 16 → idx_to_rgb idx = none) ∧
    (∀ (c : Color) (palette : List Nat), ∃ v, color_to_rgb c palette = Except.ok v) := by
  constructor
  · intro idx h
    simp [idx_to_rgb, h]
  · intro c palette
    cases c with
    | Default => exact ⟨none, rfl⟩
    | Rgb r g b => exact ⟨some (r, g, b), rfl⟩
    | Idx idx =>
      by_cases h : idx < 16
      · refine ⟨some (palette.getD (idx * 3) 0, palette.getD (idx * 3 + 1) 0,
          palette.getD (idx * 3 + 2) 0), ?_⟩
        unfold color_to_rgb
        dsimp only
        rw [if_pos h]
      · have hex : ∃ t, idx_to_rgb idx = some t := by
          unfold idx_to_rgb
          rw [if_neg h]
          by_cases h2 : idx < 232
          · rw [if_pos h2]
            exact ⟨_, rfl⟩
          · rw [if_neg h2]
            exact ⟨_, rfl⟩
        obtain ⟨t, ht⟩ := hex
        refine ⟨some t, ?_⟩
        unfold color_to_rgb
        dsimp only
        rw [if_neg h, ht]

/-- Witness for `cube_panic_unreachable` at index 0. -/
theorem cube_panic_unreachable_witness :
    (0 : Nat) < 16 ∧ idx_to_rgb 0 = none :=
  ⟨by decide, cube_panic_unreachable.1 0 (by decide)⟩

/-! ## Claim C9: input normalization -/

theorem normAux_fixed :
    ∀ (l : List Nat) (prev : Option Nat), noBareLfAux prev l = true →
      normAux prev l = l
  | [], _, _ => rfl
  | b :: rest, prev, h => by
    rw [noBareLfAux, Bool.and_eq_true] at h
    rw [normAux]
    have hcase : ¬ (b = 10 ∧ prev ≠ some 13) := by
      intro hc
      have h1 := h.1
      rw [Bool.or_eq_true] at h1
      rcases h1 with h1 | h1
      · exact (of_decide_eq_true h1) hc.1
      · exact hc.2 (of_decide_eq_true h1)
    rw [if_neg hcase, normAux_fixed rest (some b) h.2]
    rfl

theorem normAux_noBare :
    ∀ (l : List Nat) (prev : Option Nat), noBareLfAux prev (normAux prev l) = true
  | [], _ => rfl
  | b :: rest, prev => by
    by_cases hc : b = 10 ∧ prev ≠ some 13
    · obtain ⟨hb, hp⟩ := hc
      subst hb
      rw [normAux, if_pos ⟨rfl, hp⟩]
      have ih := normAux_noBare rest (some 10)
      simp [noBareLfAux, ih]
    · rw [normAux, if_neg hc, List.singleton_append, noBareLfAux, Bool.and_eq_true]
      refine ⟨?_, normAux_noBare rest (some b)⟩
      by_cases hb : b = 10
      · have hp : prev = some 13 := by
          by_contra hp
          exact hc ⟨hb, hp⟩
        simp [hp]
      · simp [hb]

theorem normAux_length :
    ∀ (l : List Nat) (prev : Option Nat),
      (normAux prev l).length = l.length + bareLfCountAux prev l
  | [], _ => rfl
  | b :: rest, prev => by
    rw [normAux, bareLfCountAux]
    rw [List.length_append]
    rw [normAux_length rest (some b)]
    by_cases hc : b = 10 ∧ prev ≠ some 13
    · rw [if_pos hc, if_pos hc]
      simp
      omega
    · rw [if_neg hc, if_neg hc]
      simp
      omega

/-- Claim C9: normalization inserts one CR per bare LF (so the length
grows by the bare-LF count), the result contains no bare LF,
normalization is idempotent, and buffers with no bare LF (only CRLF
endings or no LF at all) are unchanged. -/
theorem normalize_capture_correct :
    (∀ x : List Nat, (normalize_capture x).length = x.length + bareLfCount x) ∧
    (∀ x : List Nat, noBareLf (normalize_capture x) = true) ∧
    (∀ x : List Nat, normalize_capture (normalize_capture x) = normalize_capture x) ∧
    (∀ x : List Nat, noBareLf x = true → normalize_capture x = x) := by
  refine ⟨?_, ?_, ?_, ?_⟩
  · intro x
    exact normAux_length x none
  · intro x
    exact normAux_noBare x none
  · intro x
    exact normAux_fixed (normAux none x) none (normAux_noBare x none)
  · intro x h
    exact normAux_fixed x none h

/-- Witness for the fixed-point part of `normalize_capture_correct` on a
CRLF buffer. -/
theorem normalize_capture_witness :
    noBareLf [65, 13, 10, 66] = true ∧
    normalize_capture [65, 13, 10, 66] = [65, 13, 10, 66] :=
  ⟨by decide, normalize_capture_correct.2.2.2 [65, 13, 10, 66] (by decide)⟩

/-! ## Claim C6: kitty color-response parsing (src/palette.rs
`parse_kitty_colors`)

The parser is embedded byte-faithfully: Rust `str::len` is the UTF-8 byte
length, and the sub-slices `&hex_str[0..2]` etc. panic when the byte index
is not a character boundary; the panic is modelled as `Except.error`. -/

/-- Rust `str::lines` segment split at `\n` (keeping every segment). -/
def splitNl : List Char → List (List Char)
  | [] => [[]]
  | c :: cs =>
    if c = Char.ofNat 10 then [] :: splitNl cs
    else
      match splitNl cs with
      | [] => [[c]]
      | h :: t => (c :: h) :: t

/-- Strip one trailing CR from a segment (Rust `str::lines`). -/
def dropOneCr (l : List Char) : List Char :=
  match l.getLast? with
  | some c => if c = Char.ofNat 13 then l.dropLast else l
  | none => l

/-- Rust `str::lines`. -/
def rustLines (s : List Char) : List (List Char) :=
  if s = [] then []
  else
    let segs := splitNl s
    let segs := if s.getLast? = some (Char.ofNat 10) then segs.dropLast else segs
    segs.map dropOneCr

/-- Rust `str::strip_prefix` for a literal pattern. -/
def stripPref : List Char → List Char → Option (List Char)
  | [], l => some l
  | _ :: _, [] => none
  | p :: ps, c :: cs => if p = c then stripPref ps cs else none

/-- Rust `str::split_once` with an ASCII-whitespace character pattern. -/
def splitOnceAsciiWs : List Char → Option (List Char × List Char)
  | [] => none
  | c :: cs =>
    if rustIsAsciiWhitespace c then some ([], cs)
    else
      match splitOnceAsciiWs cs with
      | none => none
      | some (a, b) => some (c :: a, b)

/-- Decimal digit value. -/
def decDigitVal (c : Char) : Option Nat :=
  if 48 ≤ c.toNat ∧ c.toNat ≤ 57 then some (c.toNat - 48) else none

/-- Hexadecimal digit value (either case). -/
def hexDigitVal (c : Char) : Option Nat :=
  if 48 ≤ c.toNat ∧ c.toNat ≤ 57 then some (c.toNat - 48)
  else if 97 ≤ c.toNat ∧ c.toNat ≤ 102 then some (c.toNat - 87)
  else if 65 ≤ c.toNat ∧ c.toNat ≤ 70 then some (c.toNat - 55)
  else none

/-- Digit accumulation with the u8 overflow check of Rust's integer
parsing. -/
def parseDigitsU8 (digitVal : Char → Option Nat) (base : Nat) :
    List Char → Nat → Option Nat
  | [], acc => some acc
  | c :: cs, acc =>
    match digitVal c with
    | none => none
    | some d =>
      if base * acc + d ≤ 255 then parseDigitsU8 digitVal base cs (base * acc + d)
      else none

/-- Rust `u8` parsing (`str::parse` / `from_str_radix`): an optional
leading `+`, then at least one digit; `-` is rejected for unsigned. -/
def parseU8 (digitVal : Char → Option Nat) (base : Nat) (l : List Char) : Option Nat :=
  match l with
  | [] => none
  | c :: cs =>
    let ds := if c = Char.ofNat 43 then cs else l
    match ds with
    | [] => none
    | _ => parseDigitsU8 digitVal base ds 0

/-- `str::parse::<u8>()`. -/
def parseDecU8 (l : List Char) : Option Nat := parseU8 decDigitVal 10 l

/-- `u8::from_str_radix(_, 16)`. -/
def parseHexU8 (l : List Char) : Option Nat := parseU8 hexDigitVal 16 l

/-- Split a string at a byte index; `none` when the index is not a
character boundary (where a Rust slice would panic). -/
def byteSplitAt : Nat → List Char → Option (List Char × List Char)
  | 0, l => some ([], l)
  | _ + 1, [] => none
  | n + 1, c :: cs =>
    if lenUtf8 c ≤ n + 1 then
      match byteSplitAt (n + 1 - lenUtf8 c) cs with
      | none => none
      | some (a, b) => some (c :: a, b)
    else none

/-- Rust byte slice `&s[a..b]`; `none` models the boundary panic. -/
def byteSlice (l : List Char) (a b : Nat) : Option (List Char) :=
  match byteSplitAt a l with
  | none => none
  | some (_, rest) =>
    match byteSplitAt (b - a) rest with
    | none => none
    | some (mid, _) => some mid

/-- Write an RGB triple into palette slot `idx` (bytes `idx*3..idx*3+3`). -/
def writeTriple (palette : List Nat) (idx r g b : Nat) : List Nat :=
  ((palette.set (idx * 3) r).set (idx * 3 + 1) g).set (idx * 3 + 2) b

/-- Parse one (already split) line of the `kitty @ get-colors` response:
`ok none` when the line is skipped, `ok (some (idx, r, g, b))` when it
writes a slot, `error` when the hex slicing panics. -/
def lineParsed (line0 : List Char) : Except Unit (Option (Nat × Nat × Nat × Nat)) :=
  let line := rustTrim line0
  match stripPref (str "color") line with
  | none => Except.ok none
  | some rest =>
    match splitOnceAsciiWs rest with
    | none => Except.ok none
    | some (idx_str, hex_str0) =>
      match parseDecU8 idx_str with
      | none => Except.ok none
      | some idx =>
        if 15 < idx then Except.ok none
        else
          let hex_str := (rustTrim hex_str0).dropWhile (fun c => c = Char.ofNat 35)
          if byteLen hex_str = 6 then
            match byteSlice hex_str 0 2 with
            | none => Except.error ()
            | some s1 =>
              match parseHexU8 s1 with
              | none => Except.ok none
              | some r =>
                match byteSlice hex_str 2 4 with
                | none => Except.error ()
                | some s2 =>
                  match parseHexU8 s2 with
                  | none => Except.ok none
                  | some g =>
                    match byteSlice hex_str 4 6 with
                    | none => Except.error ()
                    | some s3 =>
                      match parseHexU8 s3 with
                      | none => Except.ok none
                      | some b => Except.ok (some (idx, r, g, b))
          else if byteLen hex_str = 3 then
            match byteSlice hex_str 0 1 with
            | none => Except.error ()
            | some s1 =>
              match parseHexU8 s1 with
              | none => Except.ok none
              | some r =>
                match byteSlice hex_str 1 2 with
                | none => Except.error ()
                | some s2 =>
                  match parseHexU8 s2 with
                  | none => Except.ok none
                  | some g =>
                    match byteSlice hex_str 2 3 with
                    | none => Except.error ()
                    | some s3 =>
                      match parseHexU8 s3 with
                      | none => Except.ok none
                      | some b => Except.ok (some (idx, r * 17, g * 17, b * 17))
          else Except.ok none

/-- Apply one line to the palette. -/
def applyLine (palette : List Nat) (line : List Char) : Except Unit (List Nat) :=
  match lineParsed line with
  | Except.error e => Except.error e
  | Except.ok none => Except.ok palette
  | Except.ok (some (idx, r, g, b)) => Except.ok (writeTriple palette idx r g b)

/-- Fold the lines over the palette, aborting on a panic. -/
def parseLinesFold (palette : List Nat) : List (List Char) → Except Unit (List Nat)
  | [] => Except.ok palette
  | line :: rest =>
    match applyLine palette line with
    | Except.error e => Except.error e
    | Except.ok p => parseLinesFold p rest

/-- Parse `kitty @ get-colors` output into a 48-byte palette
(src/palette.rs `parse_kitty_colors`); `error` models the slice panic on
multi-byte characters at a slice boundary. -/
def parse_kitty_colors (output : List Char) : Except Unit (List Nat) :=
  parseLinesFold DEFAULT_PALETTE (rustLines output)

/-- Slot `i` of a palette as an RGB triple. -/
def slotGet (p : List Nat) (i : Nat) : Nat × Nat × Nat :=
  (p.getD (i * 3) 0, p.getD (i * 3 + 1) 0, p.getD (i * 3 + 2) 0)

/-- The RGB triple a line assigns to slot `idx`, if any. -/
def lineMatch (idx : Nat) (line : List Char) : Option (Nat × Nat × Nat) :=
  match lineParsed line with
  | Except.ok (some (i, r, g, b)) => if i = idx then some (r, g, b) else none
  | _ => none

theorem getD_set_self (l : List Nat) (i v : Nat) (h : i < l.length) :
    (l.set i v).getD i 0 = v := by
  rw [List.getD_eq_getElem?_getD, List.getElem?_set]
  simp [h]

theorem getD_set_ne (l : List Nat) (i j v : Nat) (h : i ≠ j) :
    (l.set i v).getD j 0 = l.getD j 0 := by
  rw [List.getD_eq_getElem?_getD, List.getElem?_set, if_neg h,
    ← List.getD_eq_getElem?_getD]

theorem slotGet_writeTriple_self (p : List Nat) (i r g b : Nat)
    (hlen : p.length = 48) (hi : i < 16) :
    slotGet (writeTriple p i r g b) i = (r, g, b) := by
  unfold slotGet writeTriple
  have l1 : ((p.set (i * 3) r).set (i * 3 + 1) g).length = 48 := by simp [hlen]
  have l2 : (p.set (i * 3) r).length = 48 := by simp [hlen]
  have e1 : (((p.set (i * 3) r).set (i * 3 + 1) g).set (i * 3 + 2) b).getD (i * 3) 0 = r := by
    rw [getD_set_ne _ _ _ _ (by omega), getD_set_ne _ _ _ _ (by omega),
      getD_set_self _ _ _ (by omega)]
  have e2 : (((p.set (i * 3) r).set (i * 3 + 1) g).set (i * 3 + 2) b).getD (i * 3 + 1) 0 = g := by
    rw [getD_set_ne _ _ _ _ (by omega), getD_set_self _ _ _ (by omega)]
  have e3 : (((p.set (i * 3) r).set (i * 3 + 1) g).set (i * 3 + 2) b).getD (i * 3 + 2) 0 = b := by
    rw [getD_set_self _ _ _ (by omega)]
  rw [e1, e2, e3]

theorem slotGet_writeTriple_ne (p : List Nat) (i j r g b : Nat) (hij : i ≠ j) :
    slotGet (writeTriple p i r g b) j = slotGet p j := by
  unfold slotGet writeTriple
  have e1 : (((p.set (i * 3) r).set (i * 3 + 1) g).set (i * 3 + 2) b).getD (j * 3) 0 =
      p.getD (j * 3) 0 := by
    rw [getD_set_ne _ _ _ _ (by omega), getD_set_ne _ _ _ _ (by omega),
      getD_set_ne _ _ _ _ (by omega)]
  have e2 : (((p.set (i * 3) r).set (i * 3 + 1) g).set (i * 3 + 2) b).getD (j * 3 + 1) 0 =
      p.getD (j * 3 + 1) 0 := by
    rw [getD_set_ne _ _ _ _ (by omega), getD_set_ne _ _ _ _ (by omega),
      getD_set_ne _ _ _ _ (by omega)]
  have e3 : (((p.set (i * 3) r).set (i * 3 + 1) g).set (i * 3 + 2) b).getD (j * 3 + 2) 0 =
      p.getD (j * 3 + 2) 0 := by
    rw [getD_set_ne _ _ _ _ (by omega), getD_set_ne _ _ _ _ (by omega),
      getD_set_ne _ _ _ _ (by omega)]
  rw [e1, e2, e3]

theorem getLast?_cons_getD {α : Type} (x d : α) :
    ∀ xs : List α, ((x :: xs).getLast?).getD d = (xs.getLast?).getD x
  | [] => rfl
  | y :: ys => by
    obtain ⟨z, hz⟩ : ∃ z, (y :: ys).getLast? = some z :=
      ⟨_, List.getLast?_eq_getLast_of_ne_nil (by simp)⟩
    rw [List.getLast?_cons_cons, hz]
    rfl

theorem lineParsed_idx_le (line : List Char) (i r g b : Nat)
    (h : lineParsed line = Except.ok (some (i, r, g, b))) : i ≤ 15 := by
  unfold lineParsed at h
  dsimp only at h
  repeat' split at h
  all_goals simp at h
  all_goals omega

theorem parseLinesFold_slot (idx : Nat) (hidx : idx < 16) :
    ∀ (ls : List (List Char)) (p pal : List Nat), p.length = 48 →
      parseLinesFold p ls = Except.ok pal →
      slotGet pal idx = ((ls.filterMap (lineMatch idx)).getLast?).getD (slotGet p idx) := by
  intro ls
  induction ls with
  | nil =>
    intro p pal hlen h
    simp only [parseLinesFold, Except.ok.injEq] at h
    subst h
    simp
  | cons line rest ih =>
    intro p pal hlen h
    rw [parseLinesFold] at h
    rw [List.filterMap_cons]
    cases hlp : lineParsed line with
    | error e =>
      unfold applyLine at h
      rw [hlp] at h
      simp at h
    | ok o =>
      cases o with
      | none =>
        unfold applyLine at h
        rw [hlp] at h
        dsimp only at h
        have hm : lineMatch idx line = none := by
          simp [lineMatch, hlp]
        rw [hm]
        exact ih p pal hlen h
      | some q =>
        obtain ⟨i, r, g, b⟩ := q
        unfold applyLine at h
        rw [hlp] at h
        dsimp only at h
        have hlen' : (writeTriple p i r g b).length = 48 := by
          simp [writeTriple, hlen]
        have ihh := ih (writeTriple p i r g b) pal hlen' h
        have hm : lineMatch idx line =
            if i = idx then some (r, g, b) else none := by
          simp [lineMatch, hlp]
        rw [hm]
        by_cases hIdx : i = idx
        · rw [if_pos hIdx]
          rw [ihh, getLast?_cons_getD]
          subst hIdx
          rw [slotGet_writeTriple_self p i r g b hlen
            (by have := lineParsed_idx_le line i r g b hlp; omega)]
        · rw [if_neg hIdx]
          rw [ihh, slotGet_writeTriple_ne p i idx r g b hIdx]

/-- Claim C6 (amended): the empty response yields the default palette, and
for any response that does not panic, palette slot `idx` holds the triple
of the last line that matches slot `idx` under the source's checks
(`lineParsed`: trimmed line starting with `color`, a token parsing as
`u8 ≤ 15` — Rust parsing allows a leading `+` —, ASCII whitespace, then a
token whose trimmed form with all leading `#` stripped has 6 or 3 hex
digits), or the default entry when no line matches. -/
theorem kitty_colors_characterization :
    parse_kitty_colors (str "") = Except.ok DEFAULT_PALETTE ∧
    (∀ (out : List Char) (pal : List Nat) (idx : Nat), idx < 16 →
      parse_kitty_colors out = Except.ok pal →
      slotGet pal idx =
        (((rustLines out).filterMap (lineMatch idx)).getLast?).getD
          (slotGet DEFAULT_PALETTE idx)) := by
  constructor
  · rfl
  · intro out pal idx hidx h
    exact parseLinesFold_slot idx hidx (rustLines out) DEFAULT_PALETTE pal rfl h

/-- Claim C6, as stated, fails: the code never requires the `#`: the line
`color1 aabbcc` (no `#`) overwrites slot 1 with AA BB CC, while the claim
says a line without a `#`-starting token is silently skipped and the
palette stays default. -/
theorem kitty_colors_counterexample :
    parse_kitty_colors (str "color1 aabbcc") =
      Except.ok (writeTriple DEFAULT_PALETTE 1 0xAA 0xBB 0xCC) ∧
    writeTriple DEFAULT_PALETTE 1 0xAA 0xBB 0xCC ≠ DEFAULT_PALETTE := by
  exact ⟨rfl, by decide⟩

/-- Witness for `kitty_colors_characterization`: two lines target slot 1;
the last one wins. -/
theorem kitty_colors_witness :
    (1 : Nat) < 16 ∧
    parse_kitty_colors (str "color1 #010203\ncolor1 #aabbcc") =
      Except.ok (writeTriple (writeTriple DEFAULT_PALETTE 1 1 2 3) 1 0xAA 0xBB 0xCC) ∧
    slotGet (writeTriple (writeTriple DEFAULT_PALETTE 1 1 2 3) 1 0xAA 0xBB 0xCC) 1 =
      (((rustLines (str "color1 #010203\ncolor1 #aabbcc")).filterMap
        (lineMatch 1)).getLast?).getD (slotGet DEFAULT_PALETTE 1) :=
  ⟨by decide, rfl,
   kitty_colors_characterization.2 (str "color1 #010203\ncolor1 #aabbcc")
     (writeTriple (writeTriple DEFAULT_PALETTE 1 1 2 3) 1 0xAA 0xBB 0xCC) 1
     (by decide) rfl⟩

/-! ## Output serialization (src/output.rs) -/

/-- Single-character replacement, as Rust `str::replace` with a one-char
pattern. -/
def replaceChar (c : Char) (rep : List Char) : List Char → List Char
  | [] => []
  | x :: xs => (if x = c then rep else [x]) ++ replaceChar c rep xs

/-- Kakoune single-quote escaping (`'` → `''`). -/
def escape_kak_single_quote (s : List Char) : List Char :=
  replaceChar (Char.ofNat 39) [Char.ofNat 39, Char.ofNat 39] s

/-- POSIX shell single-quote escaping (`'` → `'\''`). -/
def escape_shell_single_quote (s : List Char) : List Char :=
  replaceChar (Char.ofNat 39)
    [Char.ofNat 39, Char.ofNat 92, Char.ofNat 39, Char.ofNat 39] s

/-- Face escaping for range-specs: `\` → `\\`, then `|` → `\|`, then
`'` → `''`. -/
def escape_face (face : List Char) : List Char :=
  replaceChar (Char.ofNat 39) [Char.ofNat 39, Char.ofNat 39]
    (replaceChar (Char.ofNat 124) [Char.ofNat 92, Char.ofNat 124]
      (replaceChar (Char.ofNat 92) [Char.ofNat 92, Char.ofNat 92] face))

/-- The init script emitted by `write_init_kak`, as a string
(src/output.rs lines 88-154; the file write is elided). -/
def write_init_kak_script (screen : ProcessedScreen) (window_id : Nat)
    (tmp_dir ranges_path : List Char) : List Char :=
  let q : List Char := [Char.ofNat 39]
  let nl : List Char := [Char.ofNat 10]
  let tmp_dir_kak := escape_kak_single_quote tmp_dir
  let tmp_dir_sh := escape_shell_single_quote tmp_dir
  let ranges_path_kak := escape_kak_single_quote ranges_path
  str "set-option global scrollback_kitty_window_id " ++ q ++ natChars window_id
    ++ q ++ nl
  ++ nl
  ++ str "set-option buffer readonly true" ++ nl
  ++ str "set-option buffer scrollback_tmp_dir " ++ q ++ tmp_dir_kak ++ q ++ nl
  ++ nl
  ++ str "declare-option -hidden range-specs scrollback_colors" ++ nl
  ++ str "add-highlighter buffer/ ranges scrollback_colors" ++ nl
  ++ str "source " ++ q ++ ranges_path_kak ++ q ++ nl
  ++ str "update-option buffer scrollback_colors" ++ nl
  ++ nl
  ++ str "select " ++ natChars screen.cursor.line ++ [Char.ofNat 46]
    ++ natChars screen.cursor.col ++ [Char.ofNat 44] ++ natChars screen.cursor.line
    ++ [Char.ofNat 46] ++ natChars screen.cursor.col ++ nl
  ++ str "execute-keys vb" ++ nl
  ++ nl
  ++ str "kakoune-scrollback-setup-keymaps" ++ nl
  ++ nl
  ++ str "hook -always global ClientClose .* %\x7b" ++ nl
  ++ str "    evaluate-commands %sh\x7b" ++ nl
  ++ str "        if [ -d " ++ q ++ tmp_dir_sh ++ q
    ++ str " ] && [ \"$(printf " ++ q ++ str "%s" ++ q
    ++ str " \"$kak_client_list\" | wc -w)\" -le 1 ]; then" ++ nl
  ++ str "            rm -rf -- " ++ q ++ tmp_dir_sh ++ q ++ nl
  ++ str "        fi" ++ nl
  ++ str "    \x7d" ++ nl
  ++ str "\x7d" ++ nl

/-- Claim C7: the init script contains the selection command
`select line.col,line.col` for the screen's cursor, immediately followed
by the viewport-positioning directive `execute-keys vb`.  (What that
directive makes the editor's viewport do — the spec relates it to the
live viewport top `scrollback_total + 1` — is behavior of the external
editor, outside this embedding.) -/
theorem init_script_select_directive (screen : ProcessedScreen) (window_id : Nat)
    (tmp_dir ranges_path : List Char) :
    ∃ pre post, write_init_kak_script screen window_id tmp_dir ranges_path =
      pre ++ (str "select " ++ natChars screen.cursor.line ++ [Char.ofNat 46]
        ++ natChars screen.cursor.col ++ [Char.ofNat 44]
        ++ natChars screen.cursor.line ++ [Char.ofNat 46]
        ++ natChars screen.cursor.col ++ [Char.ofNat 10]
        ++ str "execute-keys vb" ++ [Char.ofNat 10]) ++ post := by
  refine ⟨str "set-option global scrollback_kitty_window_id " ++ [Char.ofNat 39]
    ++ natChars window_id ++ [Char.ofNat 39] ++ [Char.ofNat 10]
    ++ [Char.ofNat 10]
    ++ str "set-option buffer readonly true" ++ [Char.ofNat 10]
    ++ str "set-option buffer scrollback_tmp_dir " ++ [Char.ofNat 39]
    ++ escape_kak_single_quote tmp_dir ++ [Char.ofNat 39] ++ [Char.ofNat 10]
    ++ [Char.ofNat 10]
    ++ str "declare-option -hidden range-specs scrollback_colors" ++ [Char.ofNat 10]
    ++ str "add-highlighter buffer/ ranges scrollback_colors" ++ [Char.ofNat 10]
    ++ str "source " ++ [Char.ofNat 39] ++ escape_kak_single_quote ranges_path
    ++ [Char.ofNat 39] ++ [Char.ofNat 10]
    ++ str "update-option buffer scrollback_colors" ++ [Char.ofNat 10]
    ++ [Char.ofNat 10],
    [Char.ofNat 10]
    ++ str "kakoune-scrollback-setup-keymaps" ++ [Char.ofNat 10]
    ++ [Char.ofNat 10]
    ++ str "hook -always global ClientClose .* %\x7b" ++ [Char.ofNat 10]
    ++ str "    evaluate-commands %sh\x7b" ++ [Char.ofNat 10]
    ++ str "        if [ -d " ++ [Char.ofNat 39] ++ escape_shell_single_quote tmp_dir
    ++ [Char.ofNat 39] ++ str " ] && [ \"$(printf " ++ [Char.ofNat 39] ++ str "%s"
    ++ [Char.ofNat 39] ++ str " \"$kak_client_list\" | wc -w)\" -le 1 ]; then"
    ++ [Char.ofNat 10]
    ++ str "            rm -rf -- " ++ [Char.ofNat 39] ++ escape_shell_single_quote tmp_dir
    ++ [Char.ofNat 39] ++ [Char.ofNat 10]
    ++ str "        fi" ++ [Char.ofNat 10]
    ++ str "    \x7d" ++ [Char.ofNat 10]
    ++ str "\x7d" ++ [Char.ofNat 10], ?_⟩
  unfold write_init_kak_script
  simp [List.append_assoc]

/-- Mutable state of `write_ranges`: file content written so far, the
chunk being assembled, and whether any entry has been added. -/
structure RangesSt where
  out : List Char
  chunk : List Char
  hasEntries : Bool
deriving DecidableEq

/-- Opening clause of the first range-specs command. -/
def rangesHeader : List Char :=
  str "set-option buffer scrollback_colors %val\x7btimestamp\x7d"

/-- Opening clause of subsequent (additive) commands. -/
def rangesAddHeader : List Char := str "set-option -add buffer scrollback_colors"

/-- Serialized form of one span:
`'<line>.<start>,<line>.<end_inclusive>|<escaped_face>'` with the
exclusive `end_byte` converted to an inclusive end. -/
def rangeEntry (line_num : Nat) (s : Span) : List Char :=
  [Char.ofNat 39] ++ natChars line_num ++ [Char.ofNat 46] ++ natChars s.start_byte
    ++ [Char.ofNat 44] ++ natChars line_num ++ [Char.ofNat 46]
    ++ natChars (s.end_byte - 1) ++ [Char.ofNat 124] ++ escape_face s.face
    ++ [Char.ofNat 39]

/-- Add one span's entry to the state, flushing the chunk first when the
byte-size cap would be exceeded (src/output.rs lines 37-60). -/
def rangesStep (line_num : Nat) (s : Span) (st : RangesSt) : RangesSt :=
  let entry := rangeEntry line_num s
  let st1 :=
    if byteLen st.chunk + 1 + byteLen entry > 900000 ∧ st.hasEntries then
      { out := st.out ++ st.chunk ++ [Char.ofNat 10], chunk := rangesAddHeader,
        hasEntries := st.hasEntries }
    else st
  { out := st1.out, chunk := st1.chunk ++ [Char.ofNat 32] ++ entry,
    hasEntries := true }

/-- Process one line's spans. -/
def rangesLine (line_num : Nat) (spans : List Span) (st : RangesSt) : RangesSt :=
  spans.foldl (fun st s => rangesStep line_num s st) st

/-- Process all lines, 1-based line numbers. -/
def rangesLinesFold : Nat → List ProcessedLine → RangesSt → RangesSt
  | _, [], st => st
  | li, l :: ls, st => rangesLinesFold (li + 1) ls (rangesLine (li + 1) l.spans st)

/-- The range-specs script emitted by `write_ranges`
(src/output.rs `write_ranges`; the file write is elided). -/
def write_ranges (screen : ProcessedScreen) : List Char :=
  let st0 : RangesSt := { out := [], chunk := rangesHeader, hasEntries := false }
  let st := rangesLinesFold 0 screen.lines st0
  if st.hasEntries then st.out ++ st.chunk ++ [Char.ofNat 10] else st.out

theorem rangesStep_hasEntries (ln : Nat) (s : Span) (st : RangesSt) :
    (rangesStep ln s st).hasEntries = true := rfl

theorem rangesStep_extends (ln : Nat) (s : Span) (st : RangesSt) :
    ∃ t, (rangesStep ln s st).out ++ (rangesStep ln s st).chunk =
      st.out ++ st.chunk ++ t := by
  unfold rangesStep
  dsimp only
  split
  · exact ⟨[Char.ofNat 10] ++ rangesAddHeader ++ [Char.ofNat 32] ++ rangeEntry ln s,
      by simp⟩
  · exact ⟨[Char.ofNat 32] ++ rangeEntry ln s, by simp⟩

theorem rangesStep_establishes (ln : Nat) (s : Span) (st : RangesSt) :
    ∃ u, (rangesStep ln s st).out ++ (rangesStep ln s st).chunk =
      u ++ rangeEntry ln s := by
  unfold rangesStep
  dsimp only
  split
  · exact ⟨st.out ++ st.chunk ++ [Char.ofNat 10] ++ rangesAddHeader ++ [Char.ofNat 32],
      by simp⟩
  · exact ⟨st.out ++ st.chunk ++ [Char.ofNat 32], by simp⟩

/-- Containment invariant carried through the folds. -/
def CarriesEntry (e : List Char) (st : RangesSt) : Prop :=
  (∃ u v, st.out ++ st.chunk = u ++ e ++ v) ∧ st.hasEntries = true

theorem rangesStep_carries (e : List Char) (ln : Nat) (s : Span) (st : RangesSt)
    (h : CarriesEntry e st) : CarriesEntry e (rangesStep ln s st) := by
  obtain ⟨⟨u, v, huv⟩, _⟩ := h
  obtain ⟨t, ht⟩ := rangesStep_extends ln s st
  exact ⟨⟨u, v ++ t, by rw [ht, huv]; simp⟩, rangesStep_hasEntries ln s st⟩

theorem rangesLine_carries (e : List Char) (ln : Nat) :
    ∀ (spans : List Span) (st : RangesSt), CarriesEntry e st →
      CarriesEntry e (rangesLine ln spans st) := by
  intro spans
  induction spans with
  | nil => intro st h; exact h
  | cons s rest ih =>
    intro st h
    unfold rangesLine
    rw [List.foldl_cons]
    exact ih _ (rangesStep_carries e ln s st h)

theorem rangesLinesFold_carries (e : List Char) :
    ∀ (ls : List ProcessedLine) (li : Nat) (st : RangesSt), CarriesEntry e st →
      CarriesEntry e (rangesLinesFold li ls st) := by
  intro ls
  induction ls with
  | nil => intro li st h; exact h
  | cons l ls ih =>
    intro li st h
    rw [rangesLinesFold]
    exact ih _ _ (rangesLine_carries e (li + 1) l.spans st h)

theorem rangesLine_decomp (ln : Nat) (sa : List Span) (s : Span) (sb : List Span)
    (st : RangesSt) :
    rangesLine ln (sa ++ s :: sb) st =
      rangesLine ln sb (rangesStep ln s (rangesLine ln sa st)) := by
  unfold rangesLine
  rw [List.foldl_append, List.foldl_cons]

theorem rangesLinesFold_decomp :
    ∀ (A B : List ProcessedLine) (li : Nat) (st : RangesSt),
      rangesLinesFold li (A ++ B) st =
        rangesLinesFold (li + A.length) B (rangesLinesFold li A st)
  | [], B, li, st => by simp [rangesLinesFold]
  | l :: A, B, li, st => by
    rw [List.cons_append]
    rw [rangesLinesFold, rangesLinesFold]
    rw [rangesLinesFold_decomp A B (li + 1) (rangesLine (li + 1) l.spans st)]
    congr 1
    simp
    omega

theorem rangesLinesFold_nospans :
    ∀ (ls : List ProcessedLine) (li : Nat) (st : RangesSt),
      (∀ l ∈ ls, l.spans = []) → rangesLinesFold li ls st = st := by
  intro ls
  induction ls with
  | nil => intro li st _; rfl
  | cons l ls ih =>
    intro li st h
    rw [rangesLinesFold]
    have hl : l.spans = [] := h l (List.mem_cons_self l ls)
    rw [hl]
    exact ih (li + 1) st (fun x hx => h x (List.mem_cons_of_mem l hx))

/-- Claim C8: a screen whose lines carry no spans produces an empty
script, and every span of line `li` (0-based) appears in the script
serialized as the entry `'<li+1>.<start>,<li+1>.<end_byte − 1>|<escaped_face>'`
(`rangeEntry`, with `escape_face` escaping `\\` then `|` then `'`). -/
theorem write_ranges_correct :
    (∀ screen : ProcessedScreen, (∀ l ∈ screen.lines, l.spans = []) →
      write_ranges screen = []) ∧
    (∀ (screen : ProcessedScreen) (li : Nat) (line : ProcessedLine) (s : Span),
      screen.lines[li]? = some line → s ∈ line.spans →
      ∃ u v, write_ranges screen = u ++ rangeEntry (li + 1) s ++ v) := by
  constructor
  · intro screen h
    unfold write_ranges
    dsimp only
    rw [rangesLinesFold_nospans screen.lines 0 _ h]
    rfl
  · intro screen li line s hget hmem
    obtain ⟨hlt, helem⟩ := List.getElem?_eq_some.mp hget
    obtain ⟨sa, sb, hspans⟩ := List.append_of_mem hmem
    have hdecomp : screen.lines =
        screen.lines.take li ++ line :: screen.lines.drop (li + 1) := by
      conv_lhs => rw [← List.take_append_drop li screen.lines]
      congr 1
      rw [List.drop_eq_getElem_cons hlt, helem]
    have hlenA : (screen.lines.take li).length = li := by
      rw [List.length_take]
      omega
    have hcarry : CarriesEntry (rangeEntry (li + 1) s)
        (rangesLinesFold 0 screen.lines
          { out := [], chunk := rangesHeader, hasEntries := false }) := by
      conv in rangesLinesFold 0 screen.lines _ => rw [hdecomp]
      rw [rangesLinesFold_decomp, hlenA]
      rw [rangesLinesFold]
      simp only [Nat.zero_add]
      apply rangesLinesFold_carries
      rw [hspans, rangesLine_decomp]
      apply rangesLine_carries
      obtain ⟨u, hu⟩ := rangesStep_establishes (li + 1) s
        (rangesLine (li + 1) sa (rangesLinesFold 0 (screen.lines.take li)
          { out := [], chunk := rangesHeader, hasEntries := false }))
      exact ⟨⟨u, [], by rw [hu]; simp⟩, rangesStep_hasEntries _ _ _⟩
    obtain ⟨⟨u, v, huv⟩, htrue⟩ := hcarry
    refine ⟨u, v ++ [Char.ofNat 10], ?_⟩
    unfold write_ranges
    dsimp only
    rw [if_pos htrue]
    rw [← List.append_assoc, huv]
    try simp [List.append_assoc]

/-- One-line, one-span screen for the serialization witness. -/
def rangesWitnessLine : ProcessedLine :=
  { text := str "Hello World",
    spans := [{ start_byte := 1, end_byte := 6, face := str "rgb:FF0000,default+b" }] }

/-- The single span of `rangesWitnessLine`. -/
def rangesWitnessSpan : Span :=
  { start_byte := 1, end_byte := 6, face := str "rgb:FF0000,default+b" }

/-- Screen holding `rangesWitnessLine`. -/
def rangesWitnessScreen : ProcessedScreen :=
  { lines := [rangesWitnessLine], cursor := { line := 1, col := 1 } }

/-- Witness for `write_ranges_correct` on a one-line, one-span screen. -/
theorem write_ranges_witness :
    rangesWitnessScreen.lines[0]? = some rangesWitnessLine ∧
    rangesWitnessSpan ∈ rangesWitnessLine.spans ∧
    ∃ u v, write_ranges rangesWitnessScreen =
      u ++ rangeEntry (0 + 1) rangesWitnessSpan ++ v :=
  ⟨by decide, by decide,
   write_ranges_correct.2 rangesWitnessScreen 0 rangesWitnessLine rangesWitnessSpan
     (by decide) (by decide)⟩
